import Mathlib

/-!
Verification of the diffy pairwise comparison engine and shareable-state
codec: shallow embeddings of the binary/metadata file comparison
(`FileDiffTab.compareFiles`), the image pixel loop
(`ImageDiffTab.calculateDifference`), the text diff wrapper
(`TextDiffTab.performDiff`), and the URL sharing codec (`urlSharing.ts`),
together with theorems settling the specification claims.
-/

namespace Diffy

/-- The uniform five-field comparison tally (`DiffResult` in
`DiffChecker.tsx`). -/
structure DiffResult where
  added : Nat
  removed : Nat
  modified : Nat
  unchanged : Nat
  total : Nat
deriving Repr, DecidableEq

/-! ## Binary / metadata file comparison (`FileDiffTab.tsx`, `compareFiles`) -/

/-- File descriptor metadata as captured in `FileInfo` (content carried
separately). `lastModified` is an epoch-milliseconds integer. -/
structure FileMeta where
  name : String
  size : Nat
  type : String
  lastModified : Int
deriving Repr, DecidableEq

/-- `leftBytes[i] || 0`: JS indexing past the end of a `Uint8Array` yields
`undefined`, which `|| 0` turns into `0`; a real `0` byte also stays `0`. -/
def byteAt (bs : List Nat) (i : Nat) : Nat := bs.getD i 0

/-- The byte-counting loop of `compareFiles` (binary case): walk `i` from
`0` to `max(leftLength, rightLength) - 1`, incrementing on every position
where the (zero-padded) bytes differ. -/
def countDifferentBytes (L R : List Nat) : Nat :=
  (List.range (max L.length R.length)).foldl
    (fun acc i => if byteAt L i ≠ byteAt R i then acc + 1 else acc) 0

/-- Binary branch of `compareFiles`: `added`/`removed` are the clamped
length deltas (`Math.max(0, …)` over integers is truncated subtraction on
naturals), `modified` the count of differing (padded) positions. -/
def compareFilesBinary (L R : List Nat) : DiffResult :=
  let maxLength := max L.length R.length
  let differentBytes := countDifferentBytes L R
  { added := R.length - L.length
    removed := L.length - R.length
    modified := differentBytes
    unchanged := maxLength - differentBytes
    total := maxLength }

/-- Metadata branch of `compareFiles`: one flag per compared field, fixed
total of 3, `unchanged` pinned to 0. -/
def compareFilesMetadata (l r : FileMeta) : DiffResult :=
  { added := if l.name ≠ r.name then 1 else 0
    removed := if l.size ≠ r.size then 1 else 0
    modified := if l.lastModified ≠ r.lastModified then 1 else 0
    unchanged := 0
    total := 3 }

/-! ## Image comparison (`ImageDiffTab.tsx`, `calculateDifference`) -/

/-- One RGBA pixel of an `ImageData` buffer. -/
structure Pixel where
  r : Nat
  g : Nat
  b : Nat
  a : Nat
deriving Repr, DecidableEq

/-- `Math.abs(x - y)` on channel values. -/
def chanDiff (x y : Nat) : Nat := ((x : Int) - (y : Int)).natAbs

/-- Manhattan RGB distance of two pixels; alpha is ignored, exactly as the
pixel loop reads only offsets `i`, `i+1`, `i+2` of each 4-byte group. -/
def pixelDiff (p q : Pixel) : Nat :=
  chanDiff p.r q.r + chanDiff p.g q.g + chanDiff p.b q.b

/-- The pixel loop of `calculateDifference`: walk both RGBA buffers in
lockstep and count the pixels whose distance exceeds the fixed threshold
30. -/
def countDifferentPixels : List Pixel → List Pixel → Nat
  | p :: ps, q :: qs =>
    (if pixelDiff p q > 30 then 1 else 0) + countDifferentPixels ps qs
  | _, _ => 0

/-- The `DiffResult` assembled at the end of `calculateDifference`:
`totalPixels = width * height`, `modified = differentPixels`,
`added`/`removed` hardwired to 0. -/
def calculateDifferenceResult (L R : List Pixel) (width height : Nat) :
    DiffResult :=
  let totalPixels := width * height
  let differentPixels := countDifferentPixels L R
  { added := 0
    removed := 0
    modified := differentPixels
    unchanged := totalPixels - differentPixels
    total := totalPixels }

/-- An opaque black RGBA pixel. -/
def blackPixel : Pixel := ⟨0, 0, 0, 255⟩

/-- An opaque white RGBA pixel. -/
def whitePixel : Pixel := ⟨255, 255, 255, 255⟩

/-! ## Text diff (`TextDiffTab.tsx`, `performDiff`)

The tab delegates tokenized diffing to the external `diff` library
(`diffLines` / `diffWords` / `diffChars`).  That library is not part of
this repository, so the sequence-diff primitive below is modelled from the
spec (a longest-common-subsequence based diff emitting segments tagged
added / removed / untagged); the normalization pre-pass, the empty-input
guard and the result aggregation are embedded from `performDiff` itself. -/

/-- Tag of one diff segment: the `added` / `removed` flags of a `diff`
library change object, `common` for an untagged (unchanged) segment. -/
inductive SegTag where
  | added
  | removed
  | common
deriving Repr, DecidableEq

/-- One output segment: a tag plus the literal substring value. -/
structure Segment where
  tag : SegTag
  value : String
deriving Repr, DecidableEq

/-- Modelled from the spec: length of a longest common subsequence of two
token sequences, fuelled so that evaluation stays kernel-reducible.  Any
`fuel ≥ xs.length + ys.length` is exact. -/
def lcsLenF : Nat → List String → List String → Nat
  | 0, _, _ => 0
  | _ + 1, [], _ => 0
  | _ + 1, _ :: _, [] => 0
  | f + 1, x :: xs, y :: ys =>
    if x = y then lcsLenF f xs ys + 1
    else max (lcsLenF f xs (y :: ys)) (lcsLenF f (x :: xs) ys)

/-- Longest-common-subsequence length of two token sequences. -/
def lcsLen (xs ys : List String) : Nat := lcsLenF (xs.length + ys.length) xs ys

/-- Modelled from the spec: the LCS-based sequence diff, one tagged
segment per token (`common` tokens follow a longest common subsequence;
a removed token is preferred when both directions are optimal).  Fuelled;
any `fuel ≥ xs.length + ys.length` is exact. -/
def rawDiffF : Nat → List String → List String → List Segment
  | 0, xs, ys =>
    xs.map (fun x => ⟨.removed, x⟩) ++ ys.map fun y => ⟨.added, y⟩
  | _ + 1, [], ys => ys.map fun y => ⟨.added, y⟩
  | f + 1, x :: xs, [] => ⟨.removed, x⟩ :: rawDiffF f xs []
  | f + 1, x :: xs, y :: ys =>
    if x = y then ⟨.common, x⟩ :: rawDiffF f xs ys
    else if lcsLen xs (y :: ys) ≥ lcsLen (x :: xs) ys then
      ⟨.removed, x⟩ :: rawDiffF f xs (y :: ys)
    else ⟨.added, y⟩ :: rawDiffF f (x :: xs) ys

/-- Merge adjacent segments with the same tag, as the `diff` library
returns one change object per maximal run of equally-tagged tokens. -/
def mergeSegments : List Segment → List Segment
  | [] => []
  | s :: rest =>
    match mergeSegments rest with
    | [] => [s]
    | t :: ts =>
      if s.tag = t.tag then ⟨s.tag, s.value ++ t.value⟩ :: ts
      else s :: t :: ts

/-- The modelled sequence-diff primitive over token lists. -/
def diffTokens (xs ys : List String) : List Segment :=
  mergeSegments (rawDiffF (xs.length + ys.length) xs ys)

/-- Granularity selector of the text tab (`DiffGranularity`). -/
inductive Granularity where
  | lines
  | words
  | chars
deriving Repr, DecidableEq

/-- Line tokenizer: split after each newline, keeping the newline attached
to its line (the `diffLines` tokenization). -/
def tokenizeLines : List Char → List String
  | [] => []
  | c :: cs =>
    match tokenizeLines cs with
    | [] => [String.mk [c]]
    | t :: ts =>
      if c = '\n' then String.mk [c] :: t :: ts
      else (String.mk [c] ++ t) :: ts

/-- Word tokenizer: alternate runs of whitespace and non-whitespace, each
run one token (the `diffWords` tokenization, modelled from the spec). -/
def tokenizeWords : List Char → List String
  | [] => []
  | c :: cs =>
    match tokenizeWords cs with
    | [] => [String.mk [c]]
    | t :: ts =>
      if (t.data.head?.all fun d => d.isWhitespace = c.isWhitespace) then
        (String.mk [c] ++ t) :: ts
      else String.mk [c] :: t :: ts

/-- Character tokenizer: one token per character (`diffChars`). -/
def tokenizeChars (cs : List Char) : List String :=
  cs.map fun c => String.mk [c]

/-- `String.prototype.trim`: strip leading and trailing whitespace. -/
def jsTrim (s : String) : String :=
  ⟨((s.data.dropWhile Char.isWhitespace).reverse.dropWhile
      Char.isWhitespace).reverse⟩

/-- `replace(/\s+/g, ' ')`: collapse every whitespace run to one space.
The flag records whether the previous character was whitespace. -/
def collapseWsAux : Bool → List Char → List Char
  | _, [] => []
  | prevWs, c :: cs =>
    if c.isWhitespace then
      if prevWs then collapseWsAux true cs
      else ' ' :: collapseWsAux true cs
    else c :: collapseWsAux false cs

/-- The `ignoreWhitespace` pre-pass: `replace(/\s+/g, ' ').trim()`. -/
def collapseWhitespace (s : String) : String :=
  jsTrim (String.mk (collapseWsAux false s.data))

/-- The normalization pre-pass of `performDiff`: lowercase when
`ignoreCase`, collapse-and-trim whitespace when `ignoreWhitespace`. -/
def processText (s : String) (ignoreCase ignoreWhitespace : Bool) : String :=
  let s1 := if ignoreCase then s.toLower else s
  if ignoreWhitespace then collapseWhitespace s1 else s1

/-- The tokenized diff `performDiff` computes for the chosen granularity. -/
def textSegments (l r : String) (g : Granularity)
    (ignoreWhitespace ignoreCase : Bool) : List Segment :=
  let pl := processText l ignoreCase ignoreWhitespace
  let pr := processText r ignoreCase ignoreWhitespace
  match g with
  | .lines => diffTokens (tokenizeLines pl.data) (tokenizeLines pr.data)
  | .words => diffTokens (tokenizeWords pl.data) (tokenizeWords pr.data)
  | .chars => diffTokens (tokenizeChars pl.data) (tokenizeChars pr.data)

/-- `performDiff`: the empty-input guard (`!leftText.trim() &&
!rightText.trim()` reports a user error), then the diff and the
aggregation of segment counts into a `DiffResult`. -/
def performDiff (l r : String) (g : Granularity)
    (ignoreWhitespace ignoreCase : Bool) : Except String DiffResult :=
  if jsTrim l = "" ∧ jsTrim r = "" then .error "Please enter text to compare"
  else
    let diff := textSegments l r g ignoreWhitespace ignoreCase
    .ok
      { added := (diff.filter fun s => s.tag = SegTag.added).length
        removed := (diff.filter fun s => s.tag = SegTag.removed).length
        modified := 0
        unchanged :=
          (diff.filter fun s => s.tag ≠ SegTag.added ∧ s.tag ≠ SegTag.removed).length
        total := diff.length }

/-! ## Shareable-state codec (`urlSharing.ts`)

`compressData` is `btoa(encodeURIComponent(data))` and `decompressData` is
`decodeURIComponent(atob(data))`, each with its internal `try/catch`.  The
platform primitives `btoa`/`atob` (latin1 ↔ base64),
`encodeURIComponent`/`decodeURIComponent` (UTF-8 percent-coding) and
`JSON.stringify`/`JSON.parse` are modelled below from their standard
behaviour (JSON numbers restricted to the integers that actually occur in
a `SharedDiffData`). -/

/-- Concatenation of the images of `f` over a list. -/
def concatMap {α β : Type} (f : α → List β) : List α → List β
  | [] => []
  | a :: l => f a ++ concatMap f l

/-- The base64 alphabet used by `btoa`. -/
def b64Alphabet : List Char :=
  "ABCDEFGHIJKLMNOPQRSTUVWXYZabcdefghijklmnopqrstuvwxyz0123456789+/".data

/-- Sextet value to base64 character. -/
def b64Char (n : Nat) : Char := b64Alphabet.getD n 'A'

/-- Base64 character back to its sextet value; `none` for characters
outside the alphabet. -/
def b64Index (c : Char) : Option Nat := b64Alphabet.findIdx? (· = c)

/-- `btoa` byte-level encoding: three bytes to four sextet characters,
with `=` padding for a final group of one or two bytes. -/
def encodeBase64 : List Nat → List Char
  | [] => []
  | [a] => [b64Char (a / 4), b64Char (a % 4 * 16), '=', '=']
  | [a, b] =>
    [b64Char (a / 4), b64Char (a % 4 * 16 + b / 16), b64Char (b % 16 * 4), '=']
  | a :: b :: c :: rest =>
    b64Char (a / 4) :: b64Char (a % 4 * 16 + b / 16) ::
      b64Char (b % 16 * 4 + c / 64) :: b64Char (c % 64) :: encodeBase64 rest

/-- `atob` byte-level decoding; `none` on any malformed input (wrong
length, bad character, bad padding), the condition under which `atob`
throws. -/
def decodeBase64 : List Char → Option (List Nat)
  | [] => some []
  | c1 :: c2 :: c3 :: c4 :: rest => do
    let s1 ← b64Index c1
    let s2 ← b64Index c2
    if c3 = '=' then
      if c4 = '=' ∧ rest = [] then some [s1 * 4 + s2 / 16] else none
    else do
      let s3 ← b64Index c3
      if c4 = '=' then
        if rest = [] then some [s1 * 4 + s2 / 16, s2 % 16 * 16 + s3 / 4]
        else none
      else do
        let s4 ← b64Index c4
        let tail ← decodeBase64 rest
        some ((s1 * 4 + s2 / 16) :: (s2 % 16 * 16 + s3 / 4) ::
          (s3 % 4 * 64 + s4) :: tail)
  | _ => none

/-- `btoa`: base64-encode a string of latin1 characters; throws (`none`)
when some character exceeds 255. -/
def btoaFn (s : String) : Option String :=
  if s.data.all (fun c => c.toNat < 256) then
    some ⟨encodeBase64 (s.data.map Char.toNat)⟩
  else none

/-- `atob`: reverse of `btoa`; throws (`none`) on malformed base64. -/
def atobFn (s : String) : Option String :=
  (decodeBase64 s.data).map fun bs => ⟨bs.map Char.ofNat⟩

/-! ## Percent-coding (`encodeURIComponent` / `decodeURIComponent`) -/

/-- Uppercase hexadecimal digit, as `encodeURIComponent` emits. -/
def hexUpper (n : Nat) : Char := "0123456789ABCDEF".data.getD n '0'

/-- Value of a hexadecimal digit (either case accepted, as in percent
escapes); `none` for non-hex characters. -/
def hexVal (c : Char) : Option Nat :=
  if 48 ≤ c.toNat ∧ c.toNat ≤ 57 then some (c.toNat - 48)
  else if 65 ≤ c.toNat ∧ c.toNat ≤ 70 then some (c.toNat - 55)
  else if 97 ≤ c.toNat ∧ c.toNat ≤ 102 then some (c.toNat - 87)
  else none

/-- UTF-8 byte sequence of a Unicode scalar value. -/
def utf8Bytes (n : Nat) : List Nat :=
  if n < 128 then [n]
  else if n < 2048 then [192 + n / 64, 128 + n % 64]
  else if n < 65536 then [224 + n / 4096, 128 + n / 64 % 64, 128 + n % 64]
  else [240 + n / 262144, 128 + n / 4096 % 64, 128 + n / 64 % 64,
    128 + n % 64]

/-- The characters `encodeURIComponent` leaves unescaped:
`A–Z a–z 0–9 - _ . ! ~ * ' ( )`. -/
def isUnreservedURI (c : Char) : Bool :=
  decide ((65 ≤ c.toNat ∧ c.toNat ≤ 90) ∨ (97 ≤ c.toNat ∧ c.toNat ≤ 122)
    ∨ (48 ≤ c.toNat ∧ c.toNat ≤ 57)
    ∨ c.toNat ∈ ([45, 95, 46, 33, 126, 42, 39, 40, 41] : List Nat))

/-- Percent-encoding of one character: kept verbatim when unreserved,
otherwise each UTF-8 byte becomes `%XX`. -/
def percentEncodeChar (c : Char) : List Char :=
  if isUnreservedURI c then [c]
  else concatMap (fun b => ['%', hexUpper (b / 16), hexUpper (b % 16)])
    (utf8Bytes c.toNat)

/-- `encodeURIComponent` (total here: Lean strings carry no lone
surrogates, the only input on which the real one throws). -/
def encodeURIComponentFn (s : String) : String :=
  ⟨concatMap percentEncodeChar s.data⟩

/-- Fuelled core of `decodeURIComponent`: literal characters pass
through, `%XX` groups are read and UTF-8-reassembled; `none` models a
`URIError` throw.  Each step consumes at least one character, so any
`fuel ≥` input length is exact. -/
def percentDecodeF : Nat → List Char → Option (List Char)
  | _, [] => some []
  | 0, _ :: _ => none
  | f + 1, c :: rest =>
    if c = '%' then
      match rest with
      | h1 :: h2 :: rest1 => do
        let v1 ← hexVal h1
        let v2 ← hexVal h2
        let b := v1 * 16 + v2
        if b < 128 then do
          let tail ← percentDecodeF f rest1
          some (Char.ofNat b :: tail)
        else if 192 ≤ b ∧ b < 224 then
          match rest1 with
          | '%' :: h3 :: h4 :: rest2 => do
            let v3 ← hexVal h3
            let v4 ← hexVal h4
            let b2 := v3 * 16 + v4
            if 128 ≤ b2 ∧ b2 < 192 then do
              let tail ← percentDecodeF f rest2
              some (Char.ofNat ((b - 192) * 64 + (b2 - 128)) :: tail)
            else none
          | _ => none
        else if 224 ≤ b ∧ b < 240 then
          match rest1 with
          | '%' :: h3 :: h4 :: '%' :: h5 :: h6 :: rest2 => do
            let v3 ← hexVal h3
            let v4 ← hexVal h4
            let v5 ← hexVal h5
            let v6 ← hexVal h6
            let b2 := v3 * 16 + v4
            let b3 := v5 * 16 + v6
            if (128 ≤ b2 ∧ b2 < 192) ∧ (128 ≤ b3 ∧ b3 < 192) then do
              let tail ← percentDecodeF f rest2
              some (Char.ofNat
                ((b - 224) * 4096 + (b2 - 128) * 64 + (b3 - 128)) :: tail)
            else none
          | _ => none
        else if 240 ≤ b ∧ b < 248 then
          match rest1 with
          | '%' :: h3 :: h4 :: '%' :: h5 :: h6 :: '%' :: h7 :: h8 :: rest2 => do
            let v3 ← hexVal h3
            let v4 ← hexVal h4
            let v5 ← hexVal h5
            let v6 ← hexVal h6
            let v7 ← hexVal h7
            let v8 ← hexVal h8
            let b2 := v3 * 16 + v4
            let b3 := v5 * 16 + v6
            let b4 := v7 * 16 + v8
            if (128 ≤ b2 ∧ b2 < 192) ∧ (128 ≤ b3 ∧ b3 < 192) ∧
                (128 ≤ b4 ∧ b4 < 192) then do
              let tail ← percentDecodeF f rest2
              some (Char.ofNat ((b - 240) * 262144 + (b2 - 128) * 4096 +
                (b3 - 128) * 64 + (b4 - 128)) :: tail)
            else none
          | _ => none
        else none
      | _ => none
    else do
      let tail ← percentDecodeF f rest
      some (c :: tail)

/-- `decodeURIComponent`; `none` models a `URIError` throw. -/
def decodeURIComponentFn (s : String) : Option String :=
  (percentDecodeF s.data.length s.data).map fun cs => ⟨cs⟩

/-! ## JSON (`JSON.stringify` / `JSON.parse`)

The platform JSON functions are modelled over an AST whose numbers are
integers — the only numbers a `SharedDiffData` carries (its
epoch-milliseconds timestamp).  The printer follows `JSON.stringify`'s
compact output (insertion-order keys, standard string escapes); the parser
accepts exactly such compact documents. -/

inductive Json where
  | null : Json
  | bool : Bool → Json
  | num : Int → Json
  | str : String → Json
  | arr : List Json → Json
  | obj : List (String × Json) → Json

/-- Decimal digit character. -/
def digitChar (n : Nat) : Char := "0123456789".data.getD n '0'

/-- ASCII decimal digit test. -/
def isDigitC (c : Char) : Bool := decide (48 ≤ c.toNat ∧ c.toNat ≤ 57)

/-- Value of a decimal digit character. -/
def digitVal (c : Char) : Nat := c.toNat - 48

/-- Fuelled decimal printer for naturals (kernel-reducible); any
`fuel > n` is exact. -/
def natToCharsF : Nat → Nat → List Char
  | 0, _ => []
  | f + 1, n =>
    if n < 10 then [digitChar n]
    else natToCharsF f (n / 10) ++ [digitChar (n % 10)]

/-- Decimal digits of a natural number. -/
def natToChars (n : Nat) : List Char := natToCharsF (n + 1) n

/-- `JSON.stringify` of an integer. -/
def printInt (i : Int) : List Char :=
  if i < 0 then '-' :: natToChars i.natAbs else natToChars i.toNat

/-- Lowercase hexadecimal digit, as in `\u00XX` escapes. -/
def hexLower (n : Nat) : Char := "0123456789abcdef".data.getD n '0'

/-- `JSON.stringify` string escaping for one character. -/
def escapeChar (c : Char) : List Char :=
  if c = '"' then ['\\', '"']
  else if c = '\\' then ['\\', '\\']
  else if c.toNat = 8 then ['\\', 'b']
  else if c.toNat = 9 then ['\\', 't']
  else if c.toNat = 10 then ['\\', 'n']
  else if c.toNat = 12 then ['\\', 'f']
  else if c.toNat = 13 then ['\\', 'r']
  else if c.toNat < 32 then
    ['\\', 'u', '0', '0', hexLower (c.toNat / 16), hexLower (c.toNat % 16)]
  else [c]

/-- `JSON.stringify` of a string: quoted, characters escaped. -/
def printString (s : String) : List Char :=
  '"' :: (concatMap escapeChar s.data ++ ['"'])

mutual

/-- `JSON.stringify` body (compact), with the comma-joined element and
field texts of arrays and objects produced by the two list printers. -/
def printJson : Json → List Char
  | .null => "null".data
  | .bool b => cond b "true".data "false".data
  | .num i => printInt i
  | .str s => printString s
  | .arr xs => '[' :: printElemsJoined xs ++ [']']
  | .obj fs => '{' :: printFieldsJoined fs ++ ['}']

/-- Comma-joined printed text of a list of array elements. -/
def printElemsJoined : List Json → List Char
  | [] => []
  | [x] => printJson x
  | x :: y :: xs => printJson x ++ ',' :: printElemsJoined (y :: xs)

/-- Comma-joined printed text of a list of object fields. -/
def printFieldsJoined : List (String × Json) → List Char
  | [] => []
  | [(k, v)] => printString k ++ ':' :: printJson v
  | (k, v) :: p :: fs =>
    (printString k ++ ':' :: printJson v) ++ ',' :: printFieldsJoined (p :: fs)

end

/-- `JSON.stringify` (compact form, no spacing argument). -/
def jsonStringify (j : Json) : String := ⟨printJson j⟩

/-- Greedy run of decimal digits and the remaining characters. -/
def takeDigits : List Char → List Char × List Char
  | [] => ([], [])
  | c :: rest =>
    if isDigitC c then
      let p := takeDigits rest
      (c :: p.1, p.2)
    else ([], c :: rest)

/-- Numeric value of a digit run. -/
def charsVal (ds : List Char) : Nat :=
  ds.foldl (fun acc c => acc * 10 + digitVal c) 0

/-- Parse a JSON number (integer forms; the repository's shared state
carries only integer timestamps). -/
def parseNumber (cs : List Char) : Option (Int × List Char) :=
  match cs with
  | [] => none
  | c :: rest =>
    if c = '-' then
      let p := takeDigits rest
      if p.1 = [] then none else some (-(charsVal p.1 : Int), p.2)
    else
      let p := takeDigits (c :: rest)
      if p.1 = [] then none else some ((charsVal p.1 : Int), p.2)

/-- One-character JSON string escapes. -/
def unescapeChar (c : Char) : Option Char :=
  if c = '"' then some '"'
  else if c = '\\' then some '\\'
  else if c = '/' then some '/'
  else if c = 'b' then some (Char.ofNat 8)
  else if c = 'f' then some (Char.ofNat 12)
  else if c = 'n' then some (Char.ofNat 10)
  else if c = 'r' then some (Char.ofNat 13)
  else if c = 't' then some (Char.ofNat 9)
  else none

/-- Parse a JSON string body after the opening quote: returns the decoded
characters and the text after the closing quote. -/
def parseStringBody : List Char → Option (List Char × List Char)
  | [] => none
  | c :: rest =>
    if c = '"' then some ([], rest)
    else if c = '\\' then
      match rest with
      | 'u' :: h1 :: h2 :: h3 :: h4 :: rest1 => do
        let v1 ← hexVal h1
        let v2 ← hexVal h2
        let v3 ← hexVal h3
        let v4 ← hexVal h4
        let p ← parseStringBody rest1
        some (Char.ofNat (((v1 * 16 + v2) * 16 + v3) * 16 + v4) :: p.1, p.2)
      | e :: rest1 => do
        let c1 ← unescapeChar e
        let p ← parseStringBody rest1
        some (c1 :: p.1, p.2)
      | [] => none
    else if c.toNat < 32 then none
    else do
      let p ← parseStringBody rest
      some (c :: p.1, p.2)

/-- Does the text not begin with a digit?  (Digit-headed trailing text
would be swallowed by the greedy number parser.) -/
def noDigitHeadB : List Char → Bool
  | [] => true
  | c :: _ => !isDigitC c

mutual

/-- Fuelled `JSON.parse` core for one value; every recursive call burns
one unit of fuel, and printed-length fuel is always sufficient. -/
def parseVal : Nat → List Char → Option (Json × List Char)
  | 0, _ => none
  | f + 1, cs =>
    match cs with
    | [] => none
    | c :: rest =>
      if c = 'n' then
        match rest with
        | 'u' :: 'l' :: 'l' :: r => some (Json.null, r)
        | _ => none
      else if c = 't' then
        match rest with
        | 'r' :: 'u' :: 'e' :: r => some (Json.bool true, r)
        | _ => none
      else if c = 'f' then
        match rest with
        | 'a' :: 'l' :: 's' :: 'e' :: r => some (Json.bool false, r)
        | _ => none
      else if c = '"' then
        (parseStringBody rest).map fun p => (Json.str ⟨p.1⟩, p.2)
      else if c = '[' then
        match rest with
        | [] => none
        | c2 :: rest2 =>
          if c2 = ']' then some (Json.arr [], rest2)
          else (parseElems f (c2 :: rest2)).map fun p => (Json.arr p.1, p.2)
      else if c = '{' then
        match rest with
        | [] => none
        | c2 :: rest2 =>
          if c2 = '}' then some (Json.obj [], rest2)
          else (parseFields f (c2 :: rest2)).map fun p => (Json.obj p.1, p.2)
      else if c = '-' ∨ isDigitC c = true then
        (parseNumber (c :: rest)).map fun p => (Json.num p.1, p.2)
      else none

/-- Fuelled parse of one-or-more comma-separated array elements up to the
closing bracket. -/
def parseElems : Nat → List Char → Option (List Json × List Char)
  | 0, _ => none
  | f + 1, cs => do
    let p ← parseVal f cs
    match p.2 with
    | ',' :: r2 => do
      let q ← parseElems f r2
      some (p.1 :: q.1, q.2)
    | ']' :: r2 => some ([p.1], r2)
    | _ => none

/-- Fuelled parse of one-or-more `"key":value` fields up to the closing
brace. -/
def parseFields : Nat → List Char → Option (List (String × Json) × List Char)
  | 0, _ => none
  | f + 1, cs =>
    match cs with
    | '"' :: cs1 => do
      let kp ← parseStringBody cs1
      match kp.2 with
      | ':' :: r2 => do
        let vp ← parseVal f r2
        match vp.2 with
        | ',' :: r4 => do
          let fp ← parseFields f r4
          some ((⟨kp.1⟩, vp.1) :: fp.1, fp.2)
        | '}' :: r4 => some ([(⟨kp.1⟩, vp.1)], r4)
        | _ => none
      | _ => none
    | _ => none

end

/-- `JSON.parse`: parse one value and require the input to be fully
consumed; `none` models a `SyntaxError` throw. -/
def jsonParse (s : String) : Option Json :=
  match parseVal (s.data.length + 1) s.data with
  | some (j, []) => some j
  | _ => none

/-! ## `SharedDiffData` and its JSON form -/

/-- The `DiffMode` union of `DiffChecker.tsx`. -/
inductive DiffMode where
  | text
  | image
  | file
  | excel
  | pdf
  | folder
deriving Repr, DecidableEq

/-- The string literal of each mode. -/
def DiffMode.toString : DiffMode → String
  | .text => "text"
  | .image => "image"
  | .file => "file"
  | .excel => "excel"
  | .pdf => "pdf"
  | .folder => "folder"

/-- Read a mode back from its string literal. -/
def DiffMode.ofString (s : String) : Option DiffMode :=
  if s = "text" then some .text
  else if s = "image" then some .image
  else if s = "file" then some .file
  else if s = "excel" then some .excel
  else if s = "pdf" then some .pdf
  else if s = "folder" then some .folder
  else none

/-- The optional members of `SharedDiffData.settings`. -/
structure ShareSettings where
  diffGranularity : Option String
  viewMode : Option String
  ignoreWhitespace : Option Bool
  ignoreCase : Option Bool
deriving Repr, DecidableEq

/-- `SharedDiffData` of `urlSharing.ts`. -/
structure SharedDiffData where
  mode : DiffMode
  leftContent : String
  rightContent : String
  settings : ShareSettings
  timestamp : Int
deriving Repr, DecidableEq

/-- JSON object of the settings: present members only, in the order the
text tab assembles them before sharing (`onContentChange`). -/
def settingsToJson (s : ShareSettings) : Json :=
  Json.obj
    ((match s.diffGranularity with
      | some g => [("diffGranularity", Json.str g)]
      | none => [])
    ++ (match s.viewMode with
      | some v => [("viewMode", Json.str v)]
      | none => [])
    ++ (match s.ignoreWhitespace with
      | some b => [("ignoreWhitespace", Json.bool b)]
      | none => [])
    ++ (match s.ignoreCase with
      | some b => [("ignoreCase", Json.bool b)]
      | none => []))

/-- JSON object of a `SharedDiffData`, keys in the insertion order of the
object literal built in `shareComparison`. -/
def sharedToJson (d : SharedDiffData) : Json :=
  Json.obj
    [("mode", Json.str d.mode.toString),
     ("leftContent", Json.str d.leftContent),
     ("rightContent", Json.str d.rightContent),
     ("settings", settingsToJson d.settings),
     ("timestamp", Json.num d.timestamp)]

/-- First value stored under a key of a JSON object field list. -/
def jsonLookup : List (String × Json) → String → Option Json
  | [], _ => none
  | (k, v) :: rest, key => if k = key then some v else jsonLookup rest key

/-- String payload of a JSON value. -/
def jsonAsString : Json → Option String
  | .str s => some s
  | _ => none

/-- Boolean payload of a JSON value. -/
def jsonAsBool : Json → Option Bool
  | .bool b => some b
  | _ => none

/-- Integer payload of a JSON value. -/
def jsonAsInt : Json → Option Int
  | .num i => some i
  | _ => none

/-- Typed read of the settings object, as the TS type
`SharedDiffData['settings']` describes it (all members optional). -/
def settingsFromJson : Json → Option ShareSettings
  | .obj fields =>
    some
      { diffGranularity := (jsonLookup fields "diffGranularity").bind jsonAsString
        viewMode := (jsonLookup fields "viewMode").bind jsonAsString
        ignoreWhitespace := (jsonLookup fields "ignoreWhitespace").bind jsonAsBool
        ignoreCase := (jsonLookup fields "ignoreCase").bind jsonAsBool }
  | _ => none

/-- Typed read of a parsed share payload at the `as SharedDiffData`
boundary of `parseSharedURL` (the TS cast itself checks nothing at
runtime; this is the shape the interface declares). -/
def sharedFromJson : Json → Option SharedDiffData
  | .obj fields => do
    let ms ← (jsonLookup fields "mode").bind jsonAsString
    let mode ← DiffMode.ofString ms
    let l ← (jsonLookup fields "leftContent").bind jsonAsString
    let r ← (jsonLookup fields "rightContent").bind jsonAsString
    let sj ← jsonLookup fields "settings"
    let st ← settingsFromJson sj
    let t ← (jsonLookup fields "timestamp").bind jsonAsInt
    some ⟨mode, l, r, st, t⟩
  | _ => none

/-- `compressData`: `btoa(encodeURIComponent(data))`, the `catch`
returning the input unchanged when `btoa` throws. -/
def compressData (data : String) : String :=
  match btoaFn (encodeURIComponentFn data) with
  | some s => s
  | none => data

/-- `decompressData`: `decodeURIComponent(atob(data))`, the `catch`
returning the input unchanged when either primitive throws. -/
def decompressData (data : String) : String :=
  match atobFn data with
  | none => data
  | some s =>
    match decodeURIComponentFn s with
    | none => data
    | some r => r

/-- The inline share codec, as exercised by the `#share=` paths:
`generateShareableURL` builds `compressData(JSON.stringify(data))` and
`parseSharedURL` feeds the token to
`JSON.parse(decompressData(compressed))`. -/
def encodeShared (d : SharedDiffData) : String :=
  compressData (jsonStringify (sharedToJson d))

/-- Decoding of a share token: decompress, `JSON.parse`, and the typed
read of the result declared by the `as SharedDiffData` assertion. -/
def decodeShared (token : String) : Option SharedDiffData :=
  (jsonParse (decompressData token)).bind sharedFromJson

/-- JS string coercion of an integer (`'diff_' + Date.now()`). -/
def intToString (i : Int) : String := ⟨printInt i⟩

/-- `generateShareableURL`, the ambient browser state passed explicitly:
`baseUrl` is `location.origin + location.pathname`, `now` is
`Date.now()`, and `rand` the `Math.random().toString(36).substr(2, 9)`
suffix.  The function returns the URL; the `localStorage` /
`sessionStorage` writes of the `#ref=` branch concern only later loads
and are not modelled. -/
def generateShareableURL (data : SharedDiffData) (baseUrl : String)
    (now : Int) (rand : String) : String :=
  let jsonData := jsonStringify (sharedToJson data)
  if jsonData.length < 1000 then
    baseUrl ++ "#share=" ++ compressData jsonData
  else
    baseUrl ++ "#ref=" ++ ("diff_" ++ intToString now ++ "_" ++ rand)

/-- The one exception the embedded `parseSharedURL` body can raise: a
`JSON.parse` syntax error. -/
inductive JsError where
  | jsonSyntaxError
deriving Repr, DecidableEq

/-- `JSON.parse` as a throwing operation. -/
def jsonParseExc (s : String) : Except JsError Json :=
  match jsonParse s with
  | some j => Except.ok j
  | none => Except.error JsError.jsonSyntaxError

/-- `parseSharedURL`, ambient state passed explicitly: `hash` is
`window.location.hash` (with its leading `#`), the two stores are the
`localStorage` / `sessionStorage` lookups.  Each `try/catch` of the
source turns a thrown `JSON.parse` error into the fall-through `null`
result; a `.error` value would be an uncaught exception escaping the
function.  The TS `as SharedDiffData` assertion checks nothing at
runtime, so the parsed JSON value is returned as-is. -/
def parseSharedURL (hash : String)
    (localStore sessionStore : String → Option String) :
    Except JsError (Option Json) :=
  if (hash.drop 1).startsWith "share=" then
    match jsonParseExc (decompressData ((hash.drop 1).drop 6)) with
    | Except.ok j => Except.ok (some j)
    | Except.error _ => Except.ok none
  else if (hash.drop 1).startsWith "ref=" then
    match
      (match localStore ((hash.drop 1).drop 4) with
       | some d => some d
       | none => sessionStore ("share_" ++ (hash.drop 1).drop 4)) with
    | some d =>
      match jsonParseExc d with
      | Except.ok j => Except.ok (some j)
      | Except.error _ => Except.ok none
    | none => Except.ok none
  else Except.ok none

/-- A shared state whose JSON serialization reaches the 1000-character
cutover: 1000 characters of left content. -/
def bigSharedState : SharedDiffData :=
  ⟨DiffMode.text, ⟨List.replicate 1000 'a'⟩, "",
    ⟨none, none, none, none⟩, 0⟩

/-- A small shared state, below the cutover. -/
def smallSharedState : SharedDiffData :=
  ⟨DiffMode.text, "a", "b", ⟨none, none, none, none⟩, 0⟩

/-! ## Shared helper lemmas -/

theorem foldl_count_if {α : Type} (p : α → Bool) :
    ∀ (l : List α) (n : Nat),
      l.foldl (fun acc i => if p i then acc + 1 else acc) n = n + l.countP p := by
  intro l
  induction l with
  | nil => intro n; simp
  | cons a t ih =>
    intro n
    by_cases h : p a <;> simp [List.countP_cons, h, ih] <;> omega

theorem countDifferentBytes_eq_countP (L R : List Nat) :
    countDifferentBytes L R
      = (List.range (max L.length R.length)).countP
          fun i => byteAt L i ≠ byteAt R i := by
  unfold countDifferentBytes
  simpa using foldl_count_if (fun i => decide (byteAt L i ≠ byteAt R i))
    (List.range (max L.length R.length)) 0

theorem countDifferentBytes_self (L : List Nat) :
    countDifferentBytes L L = 0 := by
  rw [countDifferentBytes_eq_countP]
  simp

theorem countDifferentPixels_eq_filter (L R : List Pixel) :
    countDifferentPixels L R
      = ((L.zip R).filter fun pq => pixelDiff pq.1 pq.2 > 30).length := by
  induction L generalizing R with
  | nil => cases R <;> simp [countDifferentPixels]
  | cons p ps ih =>
    cases R with
    | nil => simp [countDifferentPixels]
    | cons q qs =>
      by_cases h : pixelDiff p q > 30 <;>
        simp [countDifferentPixels, List.filter, h, ih qs, List.zip] <;>
        omega

theorem pixelDiff_black_white : pixelDiff blackPixel whitePixel = 765 := by
  decide

theorem countDifferentPixels_replicate_black_white (n : Nat) :
    countDifferentPixels (List.replicate n blackPixel)
      (List.replicate n whitePixel) = n := by
  induction n with
  | zero => rfl
  | succ m ih =>
    rw [List.replicate_succ, List.replicate_succ]
    simp [countDifferentPixels, ih, pixelDiff_black_white]
    omega

/-! ## Lemmas about the text diff -/

theorem rawDiffF_self : ∀ (f : Nat) (xs : List String), xs.length ≤ f →
    rawDiffF f xs xs = xs.map fun x => ⟨SegTag.common, x⟩ := by
  intro f
  induction f with
  | zero =>
    intro xs h
    have : xs = [] := List.eq_nil_of_length_eq_zero (Nat.le_zero.mp h)
    subst this
    rfl
  | succ g ih =>
    intro xs h
    cases xs with
    | nil => rfl
    | cons x rest =>
      have hrest : rest.length ≤ g := by
        simpa [Nat.succ_le_succ_iff] using h
      simp [rawDiffF, ih rest hrest]

theorem mergeSegments_tags (t : SegTag) :
    ∀ (l : List Segment), (∀ s ∈ l, s.tag = t) →
      ∀ s ∈ mergeSegments l, s.tag = t := by
  intro l
  induction l with
  | nil => intro _ s hs; simp [mergeSegments] at hs
  | cons a rest ih =>
    intro hall s hs
    have ha : a.tag = t := hall a (by simp)
    have hrest : ∀ u ∈ rest, u.tag = t := fun u hu => hall u (by simp [hu])
    rcases hm : mergeSegments rest with _ | ⟨u, us⟩
    · simp only [mergeSegments, hm] at hs
      simp at hs
      simp [hs, ha]
    · have hu : u.tag = t := ih hrest u (by simp [hm])
      have hus : ∀ v ∈ us, v.tag = t := fun v hv => ih hrest v (by simp [hm, hv])
      simp only [mergeSegments, hm] at hs
      by_cases he : a.tag = u.tag
      · simp only [if_pos he, List.mem_cons] at hs
        rcases hs with hs | hs
        · simp [hs, ha]
        · exact hus s hs
      · simp only [if_neg he, List.mem_cons] at hs
        rcases hs with hs | hs | hs
        · simp [hs, ha]
        · simp [hs, hu]
        · exact hus s hs

theorem diffTokens_self_tags (toks : List String) :
    ∀ s ∈ diffTokens toks toks, s.tag = SegTag.common := by
  intro s hs
  unfold diffTokens at hs
  rw [rawDiffF_self (toks.length + toks.length) toks (by omega)] at hs
  refine mergeSegments_tags SegTag.common _ ?_ s hs
  intro u hu
  simp at hu
  obtain ⟨x, _, rfl⟩ := hu
  rfl

theorem textSegments_self_tags (a : String) (g : Granularity) :
    ∀ s ∈ textSegments a a g false false, s.tag = SegTag.common := by
  cases g <;> exact fun s hs => diffTokens_self_tags _ s hs

/-! ## Claim theorems: file comparison -/

/-- C3: for every pair of byte buffers, the binary comparison satisfies
`total = max(|L|, |R|)`, `modified` equals the number of positions below
`total` at which the zero-padded bytes differ, `unchanged = total −
modified`, `added = max(0, |R| − |L|)` and `removed = max(0, |L| − |R|)`;
identical buffers yield `modified = added = removed = 0` and
`unchanged = total = N`. -/
theorem compareFilesBinary_postcondition (L R : List Nat) :
    (compareFilesBinary L R).total = max L.length R.length
  ∧ (compareFilesBinary L R).modified
      = ((List.range (max L.length R.length)).filter
          fun i => byteAt L i ≠ byteAt R i).length
  ∧ (compareFilesBinary L R).unchanged
      = (compareFilesBinary L R).total - (compareFilesBinary L R).modified
  ∧ ((compareFilesBinary L R).added : Int)
      = max 0 ((R.length : Int) - (L.length : Int))
  ∧ ((compareFilesBinary L R).removed : Int)
      = max 0 ((L.length : Int) - (R.length : Int))
  ∧ compareFilesBinary L L = ⟨0, 0, 0, L.length, L.length⟩ := by
  refine ⟨rfl, ?_, rfl, ?_, ?_, ?_⟩
  · simp [compareFilesBinary, countDifferentBytes_eq_countP,
      List.countP_eq_length_filter]
  · simp [compareFilesBinary]; omega
  · simp [compareFilesBinary]; omega
  · simp [compareFilesBinary, countDifferentBytes_self]

/-- C4 counterexample: with left buffer `[5]` and right buffer `[5, 1]`
(one extra trailing byte `1`), the code reports `modified = 1`, not the
claimed `modified = 0`: the padded position compares the padding `0`
against the extra byte. -/
theorem compareFilesBinary_trailing_counterexample :
    ¬ (compareFilesBinary [5] [5, 1]).modified = 0 := by decide

/-- C4 (amended): appending one trailing byte `b` to the left buffer gives
`added = 1`, `removed = 0`, and `modified` equal to `1` when `b ≠ 0` and
`0` when `b = 0` — the overlapping prefix contributes no mismatch, but the
final position compares the zero padding of the left buffer against `b`. -/
theorem compareFilesBinary_trailing_byte (L : List Nat) (b : Nat) :
    compareFilesBinary L (L ++ [b])
      = { added := 1, removed := 0,
          modified := if b = 0 then 0 else 1,
          unchanged := L.length + 1 - (if b = 0 then 0 else 1),
          total := L.length + 1 } := by
  have hlen : (L ++ [b]).length = L.length + 1 := by simp
  have hmax : max L.length (L ++ [b]).length = L.length + 1 := by
    simp
  have h2 : byteAt L L.length = 0 := by
    simp [byteAt, List.getD]
  have h3 : byteAt (L ++ [b]) L.length = b := by
    simp [byteAt, List.getD]
  have hcount : countDifferentBytes L (L ++ [b]) = if b = 0 then 0 else 1 := by
    rw [countDifferentBytes_eq_countP, hmax, List.range_succ,
      List.countP_append]
    have h1 : (List.range L.length).countP
        (fun i => byteAt L i ≠ byteAt (L ++ [b]) i) = 0 := by
      rw [List.countP_eq_zero]
      intro i hi
      have hi' : i < L.length := List.mem_range.mp hi
      simp [byteAt, List.getD, List.getElem?_append, hi']
    rw [h1, List.countP_singleton]
    simp only [h2, h3]
    by_cases hb : b = 0 <;> simp [hb] <;> omega
  unfold compareFilesBinary
  simp only [hmax, hlen, hcount]
  by_cases hb : b = 0 <;> simp [hb] <;> omega

/-- C9: metadata-mode comparison returns exactly one flag per field
(`added` for names, `removed` for sizes, `modified` for timestamps),
`unchanged = 0` and `total = 3`; descriptors differing only in
`lastModified` give `{added 0, removed 0, modified 1, unchanged 0,
total 3}`. -/
theorem compareFilesMetadata_postcondition (l r : FileMeta) :
    compareFilesMetadata l r
      = { added := if l.name ≠ r.name then 1 else 0,
          removed := if l.size ≠ r.size then 1 else 0,
          modified := if l.lastModified ≠ r.lastModified then 1 else 0,
          unchanged := 0,
          total := 3 }
  ∧ (l.name = r.name → l.size = r.size → l.lastModified ≠ r.lastModified →
      compareFilesMetadata l r = ⟨0, 0, 1, 0, 3⟩) := by
  refine ⟨rfl, ?_⟩
  intro h1 h2 h3
  simp [compareFilesMetadata, h1, h2, h3]

/-- Witness for C9 at two concrete descriptors differing only in the
timestamp. -/
theorem compareFilesMetadata_postcondition_witness :
    compareFilesMetadata ⟨"a.bin", 4, "application/x", 10⟩
        ⟨"a.bin", 4, "application/x", 20⟩ = ⟨0, 0, 1, 0, 3⟩ :=
  (compareFilesMetadata_postcondition ⟨"a.bin", 4, "application/x", 10⟩
    ⟨"a.bin", 4, "application/x", 20⟩).2 rfl rfl (by decide)

/-- C10: in binary mode the `added` and `removed` counts are never both
nonzero, and they sum to the absolute difference of the buffer lengths. -/
theorem compareFilesBinary_added_removed (L R : List Nat) :
    ((compareFilesBinary L R).added = 0 ∨ (compareFilesBinary L R).removed = 0)
  ∧ (compareFilesBinary L R).added + (compareFilesBinary L R).removed
      = ((L.length : Int) - (R.length : Int)).natAbs := by
  simp only [compareFilesBinary]
  constructor
  · omega
  · omega

/-! ## Claim theorems: image comparison -/

/-- C6: on the common canvas, a pixel pair is classified different exactly
when its Manhattan RGB distance (alpha ignored) exceeds 30; the result has
`modified` = number of different pixels, `unchanged = total − modified`,
`added = removed = 0`, `total = width × height`, and an all-black versus
all-white canvas of equal dimensions makes every pixel different. -/
theorem calculateDifference_postcondition (L R : List Pixel) (w h : Nat)
    (hL : L.length = w * h) (hR : R.length = w * h) :
    (calculateDifferenceResult L R w h).total = w * h
  ∧ (calculateDifferenceResult L R w h).modified
      = ((L.zip R).filter fun pq => pixelDiff pq.1 pq.2 > 30).length
  ∧ (calculateDifferenceResult L R w h).unchanged
      = w * h - (calculateDifferenceResult L R w h).modified
  ∧ (calculateDifferenceResult L R w h).added = 0
  ∧ (calculateDifferenceResult L R w h).removed = 0
  ∧ (calculateDifferenceResult (List.replicate (w * h) blackPixel)
        (List.replicate (w * h) whitePixel) w h).modified
      = (calculateDifferenceResult (List.replicate (w * h) blackPixel)
          (List.replicate (w * h) whitePixel) w h).total := by
  refine ⟨rfl, ?_, rfl, rfl, rfl, ?_⟩
  · simp [calculateDifferenceResult, countDifferentPixels_eq_filter]
  · simp [calculateDifferenceResult,
      countDifferentPixels_replicate_black_white]

/-- Witness for C6 on a 1×1 canvas holding one black and one white
pixel. -/
theorem calculateDifference_postcondition_witness :
    (calculateDifferenceResult [Diffy.blackPixel] [Diffy.whitePixel] 1 1).total
        = 1 * 1
  ∧ (calculateDifferenceResult [Diffy.blackPixel] [Diffy.whitePixel] 1 1).modified
      = ((([Diffy.blackPixel].zip [Diffy.whitePixel]).filter
          fun pq => pixelDiff pq.1 pq.2 > 30)).length
  ∧ (calculateDifferenceResult [Diffy.blackPixel] [Diffy.whitePixel] 1 1).unchanged
      = 1 * 1 - (calculateDifferenceResult [Diffy.blackPixel] [Diffy.whitePixel] 1 1).modified
  ∧ (calculateDifferenceResult [Diffy.blackPixel] [Diffy.whitePixel] 1 1).added = 0
  ∧ (calculateDifferenceResult [Diffy.blackPixel] [Diffy.whitePixel] 1 1).removed = 0
  ∧ (calculateDifferenceResult (List.replicate (1 * 1) Diffy.blackPixel)
        (List.replicate (1 * 1) Diffy.whitePixel) 1 1).modified
      = (calculateDifferenceResult (List.replicate (1 * 1) Diffy.blackPixel)
          (List.replicate (1 * 1) Diffy.whitePixel) 1 1).total :=
  calculateDifference_postcondition [Diffy.blackPixel] [Diffy.whitePixel] 1 1
    (by decide) (by decide)

/-! ## Claim theorems: text diff -/

/-- C7 counterexample: for the empty string the claim fails — comparing
`""` against itself hits the empty-input guard and reports a user error
instead of yielding a result. -/
theorem performDiff_empty_counterexample :
    ¬ ∃ res, performDiff "" "" Granularity.lines false false = Except.ok res ∧
        res.added = 0 ∧ res.removed = 0 ∧ res.unchanged = res.total := by
  rintro ⟨res, hres, -⟩
  have h : performDiff "" "" Granularity.lines false false
      = Except.error "Please enter text to compare" := rfl
  rw [h] at hres
  exact Except.noConfusion hres

/-- C7 (amended): for every string `a` whose trimmed form is nonempty,
comparing `a` against itself at any granularity with both normalization
flags off yields a result with `added = 0`, `removed = 0` and
`unchanged = total`; a whitespace-only string instead trips the
"nothing to compare" guard. -/
theorem performDiff_self (a : String) (g : Granularity) (h : jsTrim a ≠ "") :
    ∃ res, performDiff a a g false false = Except.ok res ∧
      res.added = 0 ∧ res.removed = 0 ∧ res.unchanged = res.total := by
  have hguard : ¬ (jsTrim a = "" ∧ jsTrim a = "") := fun hc => h hc.1
  have htags := textSegments_self_tags a g
  have hadded : ((textSegments a a g false false).filter
      fun s => s.tag = SegTag.added).length = 0 := by
    simp only [List.length_eq_zero, List.filter_eq_nil_iff]
    intro s hs
    simp [htags s hs]
  have hremoved : ((textSegments a a g false false).filter
      fun s => s.tag = SegTag.removed).length = 0 := by
    simp only [List.length_eq_zero, List.filter_eq_nil_iff]
    intro s hs
    simp [htags s hs]
  have hunch : ((textSegments a a g false false).filter
      fun s => s.tag ≠ SegTag.added ∧ s.tag ≠ SegTag.removed).length
      = (textSegments a a g false false).length := by
    have : ((textSegments a a g false false).filter
        fun s => s.tag ≠ SegTag.added ∧ s.tag ≠ SegTag.removed)
        = textSegments a a g false false := by
      rw [List.filter_eq_self]
      intro s hs
      simp [htags s hs]
    rw [this]
  unfold performDiff
  rw [if_neg hguard]
  exact ⟨_, rfl, hadded, hremoved, hunch⟩

/-- Witness for C7's amended theorem at `a = "x"`. -/
theorem performDiff_self_witness :
    jsTrim "x" ≠ ""
  ∧ ∃ res, performDiff "x" "x" Granularity.lines false false = Except.ok res ∧
      res.added = 0 ∧ res.removed = 0 ∧ res.unchanged = res.total :=
  ⟨by decide, performDiff_self "x" Granularity.lines (by decide)⟩

/-- C8: whenever `performDiff` produces a result, `added` counts the
added-tagged segments, `removed` the removed-tagged segments, `unchanged`
the untagged segments, `total` is the segment count, and `modified` is
always 0. -/
theorem performDiff_aggregation (l r : String) (g : Granularity)
    (iw ic : Bool) (res : DiffResult)
    (hok : performDiff l r g iw ic = Except.ok res) :
    res.added
      = ((textSegments l r g iw ic).filter fun s => s.tag = SegTag.added).length
  ∧ res.removed
      = ((textSegments l r g iw ic).filter fun s => s.tag = SegTag.removed).length
  ∧ res.unchanged
      = ((textSegments l r g iw ic).filter
          fun s => s.tag ≠ SegTag.added ∧ s.tag ≠ SegTag.removed).length
  ∧ res.modified = 0
  ∧ res.total = (textSegments l r g iw ic).length := by
  unfold performDiff at hok
  split at hok
  · exact Except.noConfusion hok
  · obtain rfl := (Except.ok.injEq _ _).mp hok
    exact ⟨rfl, rfl, rfl, rfl, rfl⟩

/-- Witness for C8 at the concrete run `performDiff "a" "b"` at line
granularity. -/
theorem performDiff_aggregation_witness :
    (⟨1, 1, 0, 0, 2⟩ : DiffResult).added
      = ((textSegments "a" "b" Granularity.lines false false).filter
          fun s => s.tag = SegTag.added).length
  ∧ (⟨1, 1, 0, 0, 2⟩ : DiffResult).removed
      = ((textSegments "a" "b" Granularity.lines false false).filter
          fun s => s.tag = SegTag.removed).length
  ∧ (⟨1, 1, 0, 0, 2⟩ : DiffResult).unchanged
      = ((textSegments "a" "b" Granularity.lines false false).filter
          fun s => s.tag ≠ SegTag.added ∧ s.tag ≠ SegTag.removed).length
  ∧ (⟨1, 1, 0, 0, 2⟩ : DiffResult).modified = 0
  ∧ (⟨1, 1, 0, 0, 2⟩ : DiffResult).total
      = (textSegments "a" "b" Granularity.lines false false).length :=
  performDiff_aggregation "a" "b" Granularity.lines false false
    ⟨1, 1, 0, 0, 2⟩ (by rfl)

@[simp] theorem concatMap_nil {α β : Type} (f : α → List β) :
    concatMap f [] = [] := rfl

@[simp] theorem concatMap_cons {α β : Type} (f : α → List β) (a : α)
    (l : List α) : concatMap f (a :: l) = f a ++ concatMap f l := rfl

theorem b64Index_b64Char : ∀ n, n < 64 → b64Index (b64Char n) = some n := by
  decide

theorem b64Char_ne_pad : ∀ n, n < 64 → b64Char n ≠ '=' := by
  decide

theorem decodeBase64_encodeBase64 :
    ∀ bs : List Nat, (∀ b ∈ bs, b < 256) →
      decodeBase64 (encodeBase64 bs) = some bs
  | [], _ => rfl
  | [a], h => by
    have ha : a < 256 := h a (by simp)
    have e1 : b64Index (b64Char (a / 4)) = some (a / 4) :=
      b64Index_b64Char _ (by omega)
    have e2 : b64Index (b64Char (a % 4 * 16)) = some (a % 4 * 16) :=
      b64Index_b64Char _ (by omega)
    simp [encodeBase64, decodeBase64, e1, e2]
    omega
  | [a, b], h => by
    have ha : a < 256 := h a (by simp)
    have hb : b < 256 := h b (by simp)
    have e1 : b64Index (b64Char (a / 4)) = some (a / 4) :=
      b64Index_b64Char _ (by omega)
    have e2 : b64Index (b64Char (a % 4 * 16 + b / 16))
        = some (a % 4 * 16 + b / 16) := b64Index_b64Char _ (by omega)
    have e3 : b64Index (b64Char (b % 16 * 4)) = some (b % 16 * 4) :=
      b64Index_b64Char _ (by omega)
    have n3 : b64Char (b % 16 * 4) ≠ '=' := b64Char_ne_pad _ (by omega)
    simp [encodeBase64, decodeBase64, e1, e2, e3, n3]
    constructor <;> omega
  | a :: b :: c :: rest, h => by
    have ha : a < 256 := h a (by simp)
    have hb : b < 256 := h b (by simp)
    have hc : c < 256 := h c (by simp)
    have e1 : b64Index (b64Char (a / 4)) = some (a / 4) :=
      b64Index_b64Char _ (by omega)
    have e2 : b64Index (b64Char (a % 4 * 16 + b / 16))
        = some (a % 4 * 16 + b / 16) := b64Index_b64Char _ (by omega)
    have e3 : b64Index (b64Char (b % 16 * 4 + c / 64))
        = some (b % 16 * 4 + c / 64) := b64Index_b64Char _ (by omega)
    have e4 : b64Index (b64Char (c % 64)) = some (c % 64) :=
      b64Index_b64Char _ (by omega)
    have n3 : b64Char (b % 16 * 4 + c / 64) ≠ '=' :=
      b64Char_ne_pad _ (by omega)
    have n4 : b64Char (c % 64) ≠ '=' := b64Char_ne_pad _ (by omega)
    have ih := decodeBase64_encodeBase64 rest
      fun x hx => h x (by simp [hx])
    simp [encodeBase64, decodeBase64, e1, e2, e3, e4, n3, n4, ih]
    refine ⟨by omega, by omega, by omega⟩

theorem atobFn_btoaFn (s : String) (h : ∀ c ∈ s.data, c.toNat < 256) :
    btoaFn s = some ⟨encodeBase64 (s.data.map Char.toNat)⟩
  ∧ atobFn ⟨encodeBase64 (s.data.map Char.toNat)⟩ = some s := by
  constructor
  · unfold btoaFn
    rw [if_pos]
    exact List.all_eq_true.mpr fun c hc => decide_eq_true (h c hc)
  · unfold atobFn
    rw [show (String.mk (encodeBase64 (s.data.map Char.toNat))).data
        = encodeBase64 (s.data.map Char.toNat) from rfl]
    rw [decodeBase64_encodeBase64 (s.data.map Char.toNat)
      (by intro b hb; simp at hb; obtain ⟨c, hc, rfl⟩ := hb; exact h c hc)]
    simp only [Option.map_some']
    congr 1
    rw [List.map_map]
    have : ∀ c ∈ s.data, (Char.ofNat ∘ Char.toNat) c = id c := by
      intro c _
      simp [Function.comp, Char.ofNat_toNat]
    rw [List.map_congr_left this, List.map_id]

theorem hexVal_hexUpper : ∀ n, n < 16 → hexVal (hexUpper n) = some n := by
  decide

theorem isUnreservedURI_ne_percent {c : Char}
    (h : isUnreservedURI c = true) : c ≠ '%' := by
  intro hc
  rw [hc] at h
  exact absurd h (by decide)

theorem char_toNat_lt (c : Char) : c.toNat < 1114112 := by
  rcases c.valid with h | ⟨_, h⟩
  · exact Nat.lt_trans h (by norm_num)
  · exact h

theorem percentDecodeF_encode :
    ∀ (s : List Char) (f : Nat), s.length ≤ f →
      percentDecodeF f (concatMap percentEncodeChar s) = some s := by
  intro s
  induction s with
  | nil =>
    intro f _
    cases f <;> rfl
  | cons c s ih =>
    intro f hf
    cases f with
    | zero => simp at hf
    | succ g =>
      have hs : s.length ≤ g := by simpa using hf
      have htail := ih g hs
      by_cases hu : isUnreservedURI c
      · have hne : c ≠ '%' := isUnreservedURI_ne_percent hu
        simp only [concatMap_cons, percentEncodeChar, if_pos hu,
          List.cons_append, List.nil_append]
        simp only [percentDecodeF, if_neg hne, htail]
        rfl
      · have hvc := char_toNat_lt c
        simp only [concatMap_cons, percentEncodeChar, if_neg hu]
        by_cases h1 : c.toNat < 128
        · have e1 : hexVal (hexUpper (c.toNat / 16)) = some (c.toNat / 16) :=
            hexVal_hexUpper _ (by omega)
          have e2 : hexVal (hexUpper (c.toNat % 16)) = some (c.toNat % 16) :=
            hexVal_hexUpper _ (by omega)
          have hb : c.toNat / 16 * 16 + c.toNat % 16 = c.toNat := by omega
          simp only [utf8Bytes, if_pos h1, concatMap_cons, concatMap_nil,
            List.append_nil, List.cons_append, List.nil_append]
          simp only [percentDecodeF, if_true, e1, e2, Option.some_bind,
            Option.bind_eq_bind]
          rw [hb, if_pos h1, htail]
          simp [Char.ofNat_toNat]
        · by_cases h2 : c.toNat < 2048
          · have e1 : hexVal (hexUpper ((192 + c.toNat / 64) / 16))
                = some ((192 + c.toNat / 64) / 16) :=
              hexVal_hexUpper _ (by omega)
            have e2 : hexVal (hexUpper ((192 + c.toNat / 64) % 16))
                = some ((192 + c.toNat / 64) % 16) :=
              hexVal_hexUpper _ (by omega)
            have e3 : hexVal (hexUpper ((128 + c.toNat % 64) / 16))
                = some ((128 + c.toNat % 64) / 16) :=
              hexVal_hexUpper _ (by omega)
            have e4 : hexVal (hexUpper ((128 + c.toNat % 64) % 16))
                = some ((128 + c.toNat % 64) % 16) :=
              hexVal_hexUpper _ (by omega)
            have hb1 : (192 + c.toNat / 64) / 16 * 16
                + (192 + c.toNat / 64) % 16 = 192 + c.toNat / 64 := by omega
            have hb2 : (128 + c.toNat % 64) / 16 * 16
                + (128 + c.toNat % 64) % 16 = 128 + c.toNat % 64 := by omega
            have hc1 : ¬ (192 + c.toNat / 64 < 128) := by omega
            have hc2 : 192 ≤ 192 + c.toNat / 64 ∧ 192 + c.toNat / 64 < 224 := by
              omega
            have hc3 : 128 ≤ 128 + c.toNat % 64 ∧ 128 + c.toNat % 64 < 192 := by
              omega
            have hval : (192 + c.toNat / 64 - 192) * 64
                + (128 + c.toNat % 64 - 128) = c.toNat := by omega
            simp only [utf8Bytes, if_neg h1, if_pos h2, concatMap_cons,
              concatMap_nil, List.append_nil, List.cons_append,
              List.nil_append]
            simp only [percentDecodeF, if_true, e1, e2, Option.some_bind,
              Option.bind_eq_bind]
            rw [hb1, if_neg hc1, if_pos hc2]
            simp only [e3, e4, Option.some_bind, Option.bind_eq_bind]
            rw [hb2, if_pos hc3, htail]
            simp only [Option.some_bind]
            rw [hval, Char.ofNat_toNat]
          · by_cases h3 : c.toNat < 65536
            · have e1 : hexVal (hexUpper ((224 + c.toNat / 4096) / 16))
                  = some ((224 + c.toNat / 4096) / 16) :=
                hexVal_hexUpper _ (by omega)
              have e2 : hexVal (hexUpper ((224 + c.toNat / 4096) % 16))
                  = some ((224 + c.toNat / 4096) % 16) :=
                hexVal_hexUpper _ (by omega)
              have e3 : hexVal (hexUpper ((128 + c.toNat / 64 % 64) / 16))
                  = some ((128 + c.toNat / 64 % 64) / 16) :=
                hexVal_hexUpper _ (by omega)
              have e4 : hexVal (hexUpper ((128 + c.toNat / 64 % 64) % 16))
                  = some ((128 + c.toNat / 64 % 64) % 16) :=
                hexVal_hexUpper _ (by omega)
              have e5 : hexVal (hexUpper ((128 + c.toNat % 64) / 16))
                  = some ((128 + c.toNat % 64) / 16) :=
                hexVal_hexUpper _ (by omega)
              have e6 : hexVal (hexUpper ((128 + c.toNat % 64) % 16))
                  = some ((128 + c.toNat % 64) % 16) :=
                hexVal_hexUpper _ (by omega)
              have hb1 : (224 + c.toNat / 4096) / 16 * 16
                  + (224 + c.toNat / 4096) % 16 = 224 + c.toNat / 4096 := by
                omega
              have hb2 : (128 + c.toNat / 64 % 64) / 16 * 16
                  + (128 + c.toNat / 64 % 64) % 16
                  = 128 + c.toNat / 64 % 64 := by omega
              have hb3 : (128 + c.toNat % 64) / 16 * 16
                  + (128 + c.toNat % 64) % 16 = 128 + c.toNat % 64 := by omega
              have hc1 : ¬ (224 + c.toNat / 4096 < 128) := by omega
              have hc2 : ¬ (192 ≤ 224 + c.toNat / 4096
                  ∧ 224 + c.toNat / 4096 < 224) := by omega
              have hc3 : 224 ≤ 224 + c.toNat / 4096
                  ∧ 224 + c.toNat / 4096 < 240 := by omega
              have hc4 : (128 ≤ 128 + c.toNat / 64 % 64
                    ∧ 128 + c.toNat / 64 % 64 < 192)
                  ∧ (128 ≤ 128 + c.toNat % 64 ∧ 128 + c.toNat % 64 < 192) := by
                omega
              have hval : (224 + c.toNat / 4096 - 224) * 4096
                  + (128 + c.toNat / 64 % 64 - 128) * 64
                  + (128 + c.toNat % 64 - 128) = c.toNat := by omega
              simp only [utf8Bytes, if_neg h1, if_neg h2, if_pos h3,
                concatMap_cons, concatMap_nil, List.append_nil,
                List.cons_append, List.nil_append]
              simp only [percentDecodeF, if_true, e1, e2, Option.some_bind,
                Option.bind_eq_bind]
              rw [hb1, if_neg hc1, if_neg hc2, if_pos hc3]
              simp only [e3, e4, e5, e6, Option.some_bind,
                Option.bind_eq_bind]
              rw [hb2, hb3, if_pos hc4, htail]
              simp only [Option.some_bind]
              rw [hval, Char.ofNat_toNat]
            · have e1 : hexVal (hexUpper ((240 + c.toNat / 262144) / 16))
                  = some ((240 + c.toNat / 262144) / 16) :=
                hexVal_hexUpper _ (by omega)
              have e2 : hexVal (hexUpper ((240 + c.toNat / 262144) % 16))
                  = some ((240 + c.toNat / 262144) % 16) :=
                hexVal_hexUpper _ (by omega)
              have e3 : hexVal (hexUpper ((128 + c.toNat / 4096 % 64) / 16))
                  = some ((128 + c.toNat / 4096 % 64) / 16) :=
                hexVal_hexUpper _ (by omega)
              have e4 : hexVal (hexUpper ((128 + c.toNat / 4096 % 64) % 16))
                  = some ((128 + c.toNat / 4096 % 64) % 16) :=
                hexVal_hexUpper _ (by omega)
              have e5 : hexVal (hexUpper ((128 + c.toNat / 64 % 64) / 16))
                  = some ((128 + c.toNat / 64 % 64) / 16) :=
                hexVal_hexUpper _ (by omega)
              have e6 : hexVal (hexUpper ((128 + c.toNat / 64 % 64) % 16))
                  = some ((128 + c.toNat / 64 % 64) % 16) :=
                hexVal_hexUpper _ (by omega)
              have e7 : hexVal (hexUpper ((128 + c.toNat % 64) / 16))
                  = some ((128 + c.toNat % 64) / 16) :=
                hexVal_hexUpper _ (by omega)
              have e8 : hexVal (hexUpper ((128 + c.toNat % 64) % 16))
                  = some ((128 + c.toNat % 64) % 16) :=
                hexVal_hexUpper _ (by omega)
              have hb1 : (240 + c.toNat / 262144) / 16 * 16
                  + (240 + c.toNat / 262144) % 16
                  = 240 + c.toNat / 262144 := by omega
              have hb2 : (128 + c.toNat / 4096 % 64) / 16 * 16
                  + (128 + c.toNat / 4096 % 64) % 16
                  = 128 + c.toNat / 4096 % 64 := by omega
              have hb3 : (128 + c.toNat / 64 % 64) / 16 * 16
                  + (128 + c.toNat / 64 % 64) % 16
                  = 128 + c.toNat / 64 % 64 := by omega
              have hb4 : (128 + c.toNat % 64) / 16 * 16
                  + (128 + c.toNat % 64) % 16 = 128 + c.toNat % 64 := by omega
              have hc1 : ¬ (240 + c.toNat / 262144 < 128) := by omega
              have hc2 : ¬ (192 ≤ 240 + c.toNat / 262144
                  ∧ 240 + c.toNat / 262144 < 224) := by omega
              have hc3 : ¬ (224 ≤ 240 + c.toNat / 262144
                  ∧ 240 + c.toNat / 262144 < 240) := by omega
              have hc4 : 240 ≤ 240 + c.toNat / 262144
                  ∧ 240 + c.toNat / 262144 < 248 := by omega
              have hc5 : (128 ≤ 128 + c.toNat / 4096 % 64
                    ∧ 128 + c.toNat / 4096 % 64 < 192)
                  ∧ (128 ≤ 128 + c.toNat / 64 % 64
                    ∧ 128 + c.toNat / 64 % 64 < 192)
                  ∧ (128 ≤ 128 + c.toNat % 64 ∧ 128 + c.toNat % 64 < 192) := by
                omega
              have hval : (240 + c.toNat / 262144 - 240) * 262144
                  + (128 + c.toNat / 4096 % 64 - 128) * 4096
                  + (128 + c.toNat / 64 % 64 - 128) * 64
                  + (128 + c.toNat % 64 - 128) = c.toNat := by omega
              simp only [utf8Bytes, if_neg h1, if_neg h2, if_neg h3,
                concatMap_cons, concatMap_nil, List.append_nil,
                List.cons_append, List.nil_append]
              simp only [percentDecodeF, if_true, e1, e2, Option.some_bind,
                Option.bind_eq_bind]
              rw [hb1, if_neg hc1, if_neg hc2, if_neg hc3, if_pos hc4]
              simp only [e3, e4, e5, e6, e7, e8, Option.some_bind,
                Option.bind_eq_bind]
              rw [hb2, hb3, hb4, if_pos hc5, htail]
              simp only [Option.some_bind]
              rw [hval, Char.ofNat_toNat]

@[simp] theorem printJson_null : printJson Json.null = "null".data := by
  rw [printJson]

@[simp] theorem printJson_bool (b : Bool) :
    printJson (Json.bool b) = cond b "true".data "false".data := by
  rw [printJson]

@[simp] theorem printJson_num (i : Int) :
    printJson (Json.num i) = printInt i := by
  rw [printJson]

@[simp] theorem printJson_str (s : String) :
    printJson (Json.str s) = printString s := by
  rw [printJson]

@[simp] theorem printJson_arr (xs : List Json) :
    printJson (Json.arr xs) = '[' :: printElemsJoined xs ++ [']'] := by
  rw [printJson]

@[simp] theorem printJson_obj (fs : List (String × Json)) :
    printJson (Json.obj fs) = '{' :: printFieldsJoined fs ++ ['}'] := by
  rw [printJson]

@[simp] theorem printElemsJoined_nil : printElemsJoined [] = [] := by
  rw [printElemsJoined]

@[simp] theorem printElemsJoined_single (x : Json) :
    printElemsJoined [x] = printJson x := by
  rw [printElemsJoined]

@[simp] theorem printElemsJoined_cons (x y : Json) (xs : List Json) :
    printElemsJoined (x :: y :: xs)
      = printJson x ++ ',' :: printElemsJoined (y :: xs) := by
  rw [printElemsJoined]

@[simp] theorem printFieldsJoined_nil : printFieldsJoined [] = [] := by
  rw [printFieldsJoined]

@[simp] theorem printFieldsJoined_single (k : String) (v : Json) :
    printFieldsJoined [(k, v)] = printString k ++ ':' :: printJson v := by
  rw [printFieldsJoined]

@[simp] theorem printFieldsJoined_cons (k : String) (v : Json)
    (p : String × Json) (fs : List (String × Json)) :
    printFieldsJoined ((k, v) :: p :: fs)
      = (printString k ++ ':' :: printJson v) ++ ',' :: printFieldsJoined (p :: fs) := by
  rw [printFieldsJoined]

/-! ## Number and string printer–parser lemmas -/

theorem digitChar_isDigit : ∀ n, n < 10 → isDigitC (digitChar n) = true := by
  decide

theorem digitVal_digitChar : ∀ n, n < 10 → digitVal (digitChar n) = n := by
  decide

theorem hexVal_hexLower : ∀ n, n < 16 → hexVal (hexLower n) = some n := by
  decide

theorem natToCharsF_spec :
    ∀ (f n : Nat), n < f →
      natToCharsF f n ≠ [] ∧ ∀ c ∈ natToCharsF f n, isDigitC c = true := by
  intro f
  induction f with
  | zero => intro n hn; omega
  | succ g ih =>
    intro n hn
    rw [natToCharsF]
    by_cases h : n < 10
    · rw [if_pos h]
      refine ⟨by simp, ?_⟩
      intro c hc
      simp at hc
      rw [hc]
      exact digitChar_isDigit n h
    · rw [if_neg h]
      have hg : n / 10 < g := by omega
      obtain ⟨hne, hall⟩ := ih (n / 10) hg
      refine ⟨by simp [hne], ?_⟩
      intro c hc
      rcases List.mem_append.mp hc with hc | hc
      · exact hall c hc
      · simp at hc
        rw [hc]
        exact digitChar_isDigit _ (by omega)

theorem charsVal_append_digit (ds : List Char) (d : Char) :
    charsVal (ds ++ [d]) = charsVal ds * 10 + digitVal d := by
  unfold charsVal
  rw [List.foldl_append]
  rfl

theorem charsVal_natToCharsF :
    ∀ (f n : Nat), n < f → charsVal (natToCharsF f n) = n := by
  intro f
  induction f with
  | zero => intro n hn; omega
  | succ g ih =>
    intro n hn
    rw [natToCharsF]
    by_cases h : n < 10
    · rw [if_pos h]
      show 0 * 10 + digitVal (digitChar n) = n
      rw [digitVal_digitChar n h]
      omega
    · rw [if_neg h]
      rw [charsVal_append_digit, ih (n / 10) (by omega),
        digitVal_digitChar _ (by omega)]
      omega

theorem takeDigits_append :
    ∀ (ds rest : List Char), (∀ c ∈ ds, isDigitC c = true) →
      noDigitHeadB rest = true → takeDigits (ds ++ rest) = (ds, rest) := by
  intro ds
  induction ds with
  | nil =>
    intro rest _ hrest
    cases rest with
    | nil => rfl
    | cons c r =>
      simp only [noDigitHeadB, Bool.not_eq_true'] at hrest
      simp [takeDigits, hrest]
  | cons d ds ih =>
    intro rest hds hrest
    have hd : isDigitC d = true := hds d (by simp)
    simp [List.cons_append, takeDigits, hd,
      ih rest (fun c hc => hds c (by simp [hc])) hrest]

theorem parseNumber_natToChars (n : Nat) (rest : List Char)
    (h : noDigitHeadB rest = true) :
    parseNumber (natToChars n ++ rest) = some ((n : Int), rest) := by
  obtain ⟨hne, hall⟩ := natToCharsF_spec (n + 1) n (by omega)
  have hval : charsVal (natToCharsF (n + 1) n) = n :=
    charsVal_natToCharsF (n + 1) n (by omega)
  have htd : takeDigits (natToCharsF (n + 1) n ++ rest)
      = (natToCharsF (n + 1) n, rest) := takeDigits_append _ _ hall h
  obtain ⟨d, ds, hd⟩ := List.exists_cons_of_ne_nil hne
  have hdg : isDigitC d = true := hall d (by rw [hd]; simp)
  have hdne : d ≠ '-' := by
    intro he
    rw [he] at hdg
    exact absurd hdg (by decide)
  unfold natToChars
  rw [hd] at htd hval ⊢
  simp only [List.cons_append, parseNumber]
  rw [if_neg hdne]
  rw [← List.cons_append, htd]
  simp [hval]

theorem parseNumber_printInt (i : Int) (rest : List Char)
    (h : noDigitHeadB rest = true) :
    parseNumber (printInt i ++ rest) = some (i, rest) := by
  unfold printInt
  by_cases hi : i < 0
  · rw [if_pos hi]
    obtain ⟨hne, hall⟩ := natToCharsF_spec (i.natAbs + 1) i.natAbs (by omega)
    have hval : charsVal (natToCharsF (i.natAbs + 1) i.natAbs) = i.natAbs :=
      charsVal_natToCharsF _ _ (by omega)
    have htd : takeDigits (natToCharsF (i.natAbs + 1) i.natAbs ++ rest)
        = (natToCharsF (i.natAbs + 1) i.natAbs, rest) :=
      takeDigits_append _ _ hall h
    unfold natToChars
    simp only [List.cons_append, parseNumber, if_true]
    rw [htd]
    simp [hne, hval, -Int.cast_natAbs]
    rw [abs_of_neg hi, neg_neg]
  · rw [if_neg hi]
    rw [parseNumber_natToChars i.toNat rest h, Int.toNat_of_nonneg (by omega)]

theorem parseStringBody_escape :
    ∀ (cs rest : List Char),
      parseStringBody (concatMap escapeChar cs ++ '"' :: rest)
        = some (cs, rest) := by
  intro cs
  induction cs with
  | nil => intro rest; simp [parseStringBody.eq_def]
  | cons c cs ih =>
    intro rest
    rw [concatMap_cons, List.append_assoc]
    by_cases h1 : c = '"'
    · rw [h1]
      simp [escapeChar, parseStringBody, unescapeChar, ih rest]
    · by_cases h2 : c = '\\'
      · rw [h2]
        simp [escapeChar, parseStringBody, unescapeChar, ih rest]
      · by_cases h3 : c.toNat = 8
        · have hc : Char.ofNat 8 = c := by rw [← h3, Char.ofNat_toNat]
          simp [escapeChar, h1, h2, h3, parseStringBody, unescapeChar,
            ih rest, hc]
          exact hc
        · by_cases h4 : c.toNat = 9
          · have hc : Char.ofNat 9 = c := by rw [← h4, Char.ofNat_toNat]
            simp [escapeChar, h1, h2, h3, h4, parseStringBody, unescapeChar,
              ih rest, hc]
            exact hc
          · by_cases h5 : c.toNat = 10
            · have hc : Char.ofNat 10 = c := by rw [← h5, Char.ofNat_toNat]
              simp [escapeChar, h1, h2, h3, h4, h5, parseStringBody,
                unescapeChar, ih rest, hc]
              exact hc
            · by_cases h6 : c.toNat = 12
              · have hc : Char.ofNat 12 = c := by rw [← h6, Char.ofNat_toNat]
                simp [escapeChar, h1, h2, h3, h4, h5, h6, parseStringBody,
                  unescapeChar, ih rest, hc]
                exact hc
              · by_cases h7 : c.toNat = 13
                · have hc : Char.ofNat 13 = c := by
                    rw [← h7, Char.ofNat_toNat]
                  simp [escapeChar, h1, h2, h3, h4, h5, h6, h7,
                    parseStringBody, unescapeChar, ih rest, hc]
                  exact hc
                · by_cases h8 : c.toNat < 32
                  · have e0 : hexVal '0' = some 0 := by decide
                    have e1 : hexVal (hexLower (c.toNat / 16))
                        = some (c.toNat / 16) := hexVal_hexLower _ (by omega)
                    have e2 : hexVal (hexLower (c.toNat % 16))
                        = some (c.toNat % 16) := hexVal_hexLower _ (by omega)
                    have hval : ((0 * 16 + 0) * 16 + c.toNat / 16) * 16
                        + c.toNat % 16 = c.toNat := by omega
                    simp only [escapeChar, if_neg h1, if_neg h2, if_neg h3,
                      if_neg h4, if_neg h5, if_neg h6, if_neg h7, if_pos h8,
                      List.cons_append, List.nil_append]
                    simp [parseStringBody, e0, e1, e2, ih rest]
                    rw [show c.toNat / 16 * 16 + c.toNat % 16 = c.toNat from
                      by omega, Char.ofNat_toNat]
                  · simp only [escapeChar, if_neg h1, if_neg h2, if_neg h3,
                      if_neg h4, if_neg h5, if_neg h6, if_neg h7, if_neg h8,
                      List.cons_append, List.nil_append, List.singleton_append]
                    rw [parseStringBody.eq_def]
                    simp [h1, h2, h8, ih rest]

theorem printJson_ne_nil (j : Json) : printJson j ≠ [] := by
  cases j with
  | null => rw [printJson_null]; decide
  | bool b => cases b <;> rw [printJson_bool] <;> decide
  | num i =>
    rw [printJson_num]
    unfold printInt
    by_cases hi : i < 0
    · rw [if_pos hi]; simp
    · rw [if_neg hi]
      exact (natToCharsF_spec (i.toNat + 1) i.toNat (by omega)).1
  | str s => rw [printJson_str]; unfold printString; simp
  | arr xs => rw [printJson_arr]; simp
  | obj fs => rw [printJson_obj]; simp

theorem printJson_length_pos (j : Json) : 0 < (printJson j).length :=
  List.length_pos.mpr (printJson_ne_nil j)

theorem printJson_head (j : Json) :
    ∃ c cs, printJson j = c :: cs ∧ c ≠ ']' ∧ c ≠ '}' := by
  cases j with
  | null => exact ⟨'n', ['u', 'l', 'l'], by rw [printJson_null], by decide,
      by decide⟩
  | bool b =>
    cases b
    · exact ⟨'f', ['a', 'l', 's', 'e'], by rw [printJson_bool]; rfl,
        by decide, by decide⟩
    · exact ⟨'t', ['r', 'u', 'e'], by rw [printJson_bool]; rfl, by decide,
        by decide⟩
  | num i =>
    by_cases hi : i < 0
    · refine ⟨'-', natToChars i.natAbs, ?_, by decide, by decide⟩
      rw [printJson_num]
      unfold printInt
      rw [if_pos hi]
    · obtain ⟨hne, hall⟩ := natToCharsF_spec (i.toNat + 1) i.toNat (by omega)
      obtain ⟨d, ds, hd⟩ := List.exists_cons_of_ne_nil hne
      have hdg : isDigitC d = true := hall d (by rw [hd]; simp)
      refine ⟨d, ds, ?_, ?_, ?_⟩
      · rw [printJson_num]
        unfold printInt
        rw [if_neg hi]
        exact hd
      · intro he
        rw [he] at hdg
        exact absurd hdg (by decide)
      · intro he
        rw [he] at hdg
        exact absurd hdg (by decide)
  | str s =>
    exact ⟨'"', concatMap escapeChar s.data ++ ['"'],
      by rw [printJson_str]; rfl, by decide, by decide⟩
  | arr xs =>
    exact ⟨'[', printElemsJoined xs ++ [']'],
      by rw [printJson_arr, List.cons_append], by decide, by decide⟩
  | obj fs =>
    exact ⟨'{', printFieldsJoined fs ++ ['}'],
      by rw [printJson_obj, List.cons_append], by decide, by decide⟩

theorem printElemsJoined_cons_general (x : Json) (xs : List Json) :
    printElemsJoined (x :: xs)
      = printJson x
        ++ (match xs with
            | [] => []
            | _ :: _ => ',' :: printElemsJoined xs) := by
  cases xs with
  | nil => simp
  | cons y ys => rw [printElemsJoined_cons]

theorem printFieldsJoined_cons_general (k : String) (v : Json)
    (fs : List (String × Json)) :
    printFieldsJoined ((k, v) :: fs)
      = (printString k ++ ':' :: printJson v)
        ++ (match fs with
            | [] => []
            | _ :: _ => ',' :: printFieldsJoined fs) := by
  cases fs with
  | nil => simp
  | cons p ps => rw [printFieldsJoined_cons]

theorem digit_head_ne (d : Char) (h : isDigitC d = true) :
    d ≠ 'n' ∧ d ≠ 't' ∧ d ≠ 'f' ∧ d ≠ '"' ∧ d ≠ '[' ∧ d ≠ '{' ∧ d ≠ '-' := by
  refine ⟨?_, ?_, ?_, ?_, ?_, ?_, ?_⟩ <;>
    (intro he; rw [he] at h; exact absurd h (by decide))

set_option maxHeartbeats 1000000 in
theorem parse_print_master : ∀ f : Nat,
    (∀ j rest, (printJson j).length ≤ f → noDigitHeadB rest = true →
      parseVal f (printJson j ++ rest) = some (j, rest))
  ∧ (∀ x xs rest, (printElemsJoined (x :: xs)).length + 1 ≤ f →
      parseElems f (printElemsJoined (x :: xs) ++ ']' :: rest)
        = some (x :: xs, rest))
  ∧ (∀ k v fs rest, (printFieldsJoined ((k, v) :: fs)).length + 1 ≤ f →
      parseFields f (printFieldsJoined ((k, v) :: fs) ++ '}' :: rest)
        = some ((k, v) :: fs, rest)) := by
  intro f
  induction f using Nat.strong_induction_on with
  | _ f ih =>
    cases f with
    | zero =>
      refine ⟨?_, ?_, ?_⟩
      · intro j rest hlen _
        have := printJson_length_pos j
        omega
      · intro x xs rest hlen
        omega
      · intro k v fs rest hlen
        omega
    | succ g =>
      obtain ⟨P, E, F⟩ := ih g (Nat.lt_succ_self g)
      refine ⟨?_, ?_, ?_⟩
      · -- one JSON value
        intro j rest hlen hnd
        cases j with
        | null =>
          rw [printJson_null,
            show "null".data ++ rest = 'n' :: 'u' :: 'l' :: 'l' :: rest
              from rfl]
          simp [parseVal]
        | bool b =>
          cases b
          · rw [printJson_bool, show (cond false "true".data "false".data)
                ++ rest = 'f' :: 'a' :: 'l' :: 's' :: 'e' :: rest from rfl]
            simp [parseVal]
          · rw [printJson_bool, show (cond true "true".data "false".data)
                ++ rest = 't' :: 'r' :: 'u' :: 'e' :: rest from rfl]
            simp [parseVal]
        | num i =>
          rw [printJson_num]
          have hpn := parseNumber_printInt i rest hnd
          by_cases hi : i < 0
          · have hshape : printInt i = '-' :: natToChars i.natAbs := by
              unfold printInt
              rw [if_pos hi]
            rw [hshape, List.cons_append]
            rw [hshape, List.cons_append] at hpn
            simp [parseVal, hpn]
          · have hshape : printInt i = natToCharsF (i.toNat + 1) i.toNat := by
              unfold printInt natToChars
              rw [if_neg hi]
            obtain ⟨hne, hall⟩ :=
              natToCharsF_spec (i.toNat + 1) i.toNat (by omega)
            obtain ⟨d, ds, hd⟩ := List.exists_cons_of_ne_nil hne
            have hdg : isDigitC d = true := hall d (by rw [hd]; simp)
            obtain ⟨n1, n2, n3, n4, n5, n6, n7⟩ := digit_head_ne d hdg
            rw [hshape, hd, List.cons_append]
            rw [hshape, hd, List.cons_append] at hpn
            simp [parseVal, n1, n2, n3, n4, n5, n6, hdg, hpn]
        | str s =>
          rw [printJson_str,
            show printString s
              = '"' :: (concatMap escapeChar s.data ++ ['"']) from rfl,
            List.cons_append, List.append_assoc, List.singleton_append]
          simp [parseVal, parseStringBody_escape s.data rest]
        | arr xs =>
          rw [printJson_arr] at hlen ⊢
          cases xs with
          | nil =>
            rw [printElemsJoined_nil,
              show (('[' :: ([] : List Char)) ++ [']']) ++ rest
                = '[' :: ']' :: rest from rfl]
            simp [parseVal]
          | cons x xs =>
            have hlen' : (printElemsJoined (x :: xs)).length + 1 ≤ g := by
              simp only [List.cons_append, List.length_append,
                List.length_cons, List.length_nil] at hlen
              omega
            obtain ⟨c0, cs0, hx, hne1, hne2⟩ := printJson_head x
            have hE := E x xs rest hlen'
            have hPEJ := printElemsJoined_cons_general x xs
            rw [show (('[' :: printElemsJoined (x :: xs)) ++ [']']) ++ rest
                = '[' :: (printElemsJoined (x :: xs) ++ ']' :: rest) by
              simp]
            rw [hPEJ, hx] at hE ⊢
            simp only [List.cons_append, List.append_assoc, List.nil_append,
              List.append_nil] at hE ⊢
            simp [parseVal, hne1, hE]
        | obj fs =>
          rw [printJson_obj] at hlen ⊢
          cases fs with
          | nil =>
            rw [printFieldsJoined_nil,
              show (('{' :: ([] : List Char)) ++ ['}']) ++ rest
                = '{' :: '}' :: rest from rfl]
            simp [parseVal]
          | cons p fs =>
            rcases p with ⟨k, v⟩
            have hlen' : (printFieldsJoined ((k, v) :: fs)).length + 1 ≤ g := by
              simp only [List.cons_append, List.length_append,
                List.length_cons, List.length_nil] at hlen
              omega
            have hF := F k v fs rest hlen'
            have hPFJ := printFieldsJoined_cons_general k v fs
            rw [show (('{' :: printFieldsJoined ((k, v) :: fs)) ++ ['}']) ++ rest
                = '{' :: (printFieldsJoined ((k, v) :: fs) ++ '}' :: rest) by
              simp]
            rw [hPFJ,
              show printString k
                = '"' :: (concatMap escapeChar k.data ++ ['"']) from rfl] at hF ⊢
            simp only [List.cons_append, List.append_assoc, List.nil_append,
              List.append_nil, List.singleton_append] at hF ⊢
            simp [parseVal, hF]
      · -- array elements
        intro x xs rest hlen
        rw [printElemsJoined_cons_general] at hlen ⊢
        cases xs with
        | nil =>
          simp only [List.append_nil] at hlen ⊢
          have hP := P x (']' :: rest) (by omega) rfl
          simp [parseElems, hP]
        | cons y ys =>
          have hx := printJson_length_pos x
          simp only [List.length_append, List.length_cons] at hlen
          have hP := P x
            (',' :: (printElemsJoined (y :: ys) ++ ']' :: rest))
            (by omega) rfl
          have hE := E y ys rest (by omega)
          simp only [List.cons_append, List.append_assoc,
            List.singleton_append]
          simp [parseElems, hP, hE]
      · -- object fields
        intro k v fs rest hlen
        rw [printFieldsJoined_cons_general] at hlen ⊢
        rw [show printString k
            = '"' :: (concatMap escapeChar k.data ++ ['"']) from rfl] at hlen ⊢
        cases fs with
        | nil =>
          simp only [List.append_nil] at hlen ⊢
          simp only [List.cons_append, List.length_append, List.length_cons,
            List.length_nil] at hlen
          have hP := P v ('}' :: rest) (by omega) rfl
          simp only [List.cons_append, List.append_assoc,
            List.singleton_append, List.nil_append, List.append_nil]
          simp [parseFields, parseStringBody_escape k.data, hP]
        | cons p fs =>
          rcases p with ⟨k2, v2⟩
          have hv := printJson_length_pos v
          simp only [List.cons_append, List.length_append, List.length_cons,
            List.length_nil] at hlen
          have hP := P v
            (',' :: (printFieldsJoined ((k2, v2) :: fs) ++ '}' :: rest))
            (by omega) rfl
          have hF := F k2 v2 fs rest (by omega)
          simp only [List.cons_append, List.append_assoc,
            List.singleton_append, List.nil_append, List.append_nil]
          simp [parseFields, parseStringBody_escape k.data, hP, hF]

theorem jsonParse_jsonStringify (j : Json) :
    jsonParse (jsonStringify j) = some j := by
  unfold jsonParse jsonStringify
  have h := (parse_print_master ((printJson j).length + 1)).1 j []
    (by omega) rfl
  rw [List.append_nil] at h
  rw [show (String.mk (printJson j)).data = printJson j from rfl, h]

theorem DiffMode.ofString_toString (m : DiffMode) :
    DiffMode.ofString m.toString = some m := by
  cases m <;> rfl

theorem settingsFromJson_settingsToJson (s : ShareSettings) :
    settingsFromJson (settingsToJson s) = some s := by
  obtain ⟨g, v, w, c⟩ := s
  cases g <;> cases v <;> cases w <;> cases c <;>
    simp [settingsToJson, settingsFromJson, jsonLookup, jsonAsString,
      jsonAsBool]

theorem sharedFromJson_sharedToJson (d : SharedDiffData) :
    sharedFromJson (sharedToJson d) = some d := by
  obtain ⟨m, l, r, s, t⟩ := d
  simp [sharedToJson, sharedFromJson, jsonLookup, jsonAsString, jsonAsInt,
    DiffMode.ofString_toString, settingsFromJson_settingsToJson]

/-! ## `compressData` / `decompressData` and the share URL functions -/

theorem mem_concatMap {α β : Type} (f : α → List β) :
    ∀ (l : List α) (b : β), b ∈ concatMap f l ↔ ∃ a ∈ l, b ∈ f a := by
  intro l
  induction l with
  | nil => simp
  | cons a t ih =>
    intro b
    simp [List.mem_append, ih b]

theorem hexUpper_toNat_lt (n : Nat) : (hexUpper n).toNat < 256 := by
  unfold hexUpper
  by_cases h : n < 16
  · interval_cases n <;> decide
  · rw [List.getD_eq_default]
    · decide
    · rw [show ("0123456789ABCDEF".data).length = 16 from rfl]
      omega

theorem isUnreservedURI_toNat_lt {c : Char}
    (h : isUnreservedURI c = true) : c.toNat < 256 := by
  unfold isUnreservedURI at h
  rw [decide_eq_true_eq] at h
  rcases h with h | h | h | h
  · omega
  · omega
  · omega
  · simp at h
    rcases h with h | h | h | h | h | h | h | h | h <;> omega

theorem encodeURIComponentFn_ascii (s : String) :
    ∀ c ∈ (encodeURIComponentFn s).data, c.toNat < 256 := by
  intro c hc
  unfold encodeURIComponentFn at hc
  rw [show (String.mk (concatMap percentEncodeChar s.data)).data
      = concatMap percentEncodeChar s.data from rfl] at hc
  obtain ⟨a, _, ha⟩ := (mem_concatMap percentEncodeChar s.data c).mp hc
  revert ha
  unfold percentEncodeChar
  by_cases hu : isUnreservedURI a
  · rw [if_pos hu]
    intro ha
    simp at ha
    rw [ha]
    exact isUnreservedURI_toNat_lt hu
  · rw [if_neg hu]
    intro ha
    obtain ⟨b, _, hb⟩ := (mem_concatMap _ _ _).mp ha
    simp at hb
    rcases hb with rfl | rfl | rfl
    · decide
    · exact hexUpper_toNat_lt _
    · exact hexUpper_toNat_lt _

theorem percentEncodeChar_ne_nil (c : Char) : percentEncodeChar c ≠ [] := by
  unfold percentEncodeChar
  by_cases hu : isUnreservedURI c
  · simp [hu]
  · rw [if_neg hu]
    unfold utf8Bytes
    by_cases h1 : c.toNat < 128
    · simp [h1]
    · by_cases h2 : c.toNat < 2048
      · simp [h1, h2]
      · by_cases h3 : c.toNat < 65536 <;> simp [h1, h2, h3]

theorem length_concatMap_ge {α : Type} (f : α → List Char) :
    ∀ l : List α, (∀ a ∈ l, f a ≠ []) →
      l.length ≤ (concatMap f l).length := by
  intro l
  induction l with
  | nil => simp
  | cons a t ih =>
    intro h
    have ha : 0 < (f a).length :=
      List.length_pos.mpr (h a (by simp))
    have ht := ih fun x hx => h x (by simp [hx])
    simp only [concatMap_cons, List.length_append, List.length_cons]
    omega

theorem escapeChar_ne_nil (c : Char) : escapeChar c ≠ [] := by
  unfold escapeChar
  split_ifs <;> simp

theorem decompressData_compressData (data : String) :
    decompressData (compressData data) = data := by
  obtain ⟨hb, ha⟩ :=
    atobFn_btoaFn (encodeURIComponentFn data) (encodeURIComponentFn_ascii data)
  have hdec : decodeURIComponentFn (encodeURIComponentFn data) = some data := by
    unfold decodeURIComponentFn encodeURIComponentFn
    rw [show (String.mk (concatMap percentEncodeChar data.data)).data
        = concatMap percentEncodeChar data.data from rfl]
    rw [percentDecodeF_encode data.data _
      (length_concatMap_ge _ _ fun a _ => percentEncodeChar_ne_nil a)]
    rfl
  simp only [compressData, decompressData, hb, ha, hdec]

/-! ## Claim theorems: shareable-state codec -/

/-- C1: decoding the inline share token produced for any
`SharedDiffData` — `JSON.parse` of `decompressData` of
`compressData(JSON.stringify(state))`, read back at the declared type —
returns exactly the original state. -/
theorem codec_round_trip (d : SharedDiffData) :
    decodeShared (encodeShared d) = some d := by
  unfold encodeShared decodeShared
  rw [decompressData_compressData, jsonParse_jsonStringify]
  simp [sharedFromJson_sharedToJson]

/-- C2: `parseSharedURL` never lets an exception escape — for every URL
fragment and store contents it returns a parsed value or `null`, every
`JSON.parse` failure being caught. -/
theorem parseSharedURL_total (hash : String)
    (ls ss : String → Option String) :
    (parseSharedURL hash ls ss).isOk = true := by
  unfold parseSharedURL
  by_cases h1 : (hash.drop 1).startsWith "share="
  · rw [if_pos h1]
    cases jsonParseExc (decompressData ((hash.drop 1).drop 6)) <;> rfl
  · rw [if_neg h1]
    by_cases h2 : (hash.drop 1).startsWith "ref="
    · rw [if_pos h2]
      cases hls : ls ((hash.drop 1).drop 4) with
      | none =>
        cases hss : ss ("share_" ++ (hash.drop 1).drop 4) with
        | none => simp only [hls, hss]; rfl
        | some d =>
          cases hj : jsonParseExc d <;> (simp only [hls, hss, hj]; rfl)
      | some d =>
        cases hj : jsonParseExc d <;> (simp only [hls, hj]; rfl)
    · rw [if_neg h2]
      rfl

theorem stringify_length_ge_left (d : SharedDiffData) :
    d.leftContent.length ≤ (jsonStringify (sharedToJson d)).length := by
  show d.leftContent.length ≤ (printJson (sharedToJson d)).length
  unfold sharedToJson
  rw [printJson_obj, printFieldsJoined_cons, printFieldsJoined_cons,
    printFieldsJoined_cons, printFieldsJoined_cons, printFieldsJoined_single]
  simp only [printJson_str, printJson_num, List.length_append,
    List.length_cons]
  have h1 : d.leftContent.data.length ≤ (printString d.leftContent).length := by
    unfold printString
    simp only [List.length_cons, List.length_append]
    have := length_concatMap_ge escapeChar d.leftContent.data
      fun a _ => escapeChar_ne_nil a
    omega
  have h2 : d.leftContent.length = d.leftContent.data.length := rfl
  omega

/-- C5 counterexample: for a state whose JSON form reaches 1000
characters, `generateShareableURL` returns a `#ref=` URL, not one of the
claimed `#share=<token>` form. -/
theorem generateShareableURL_counterexample :
    ("#share=".data.isPrefixOf
      (generateShareableURL bigSharedState "" 0 "r").data) = false := by
  have hge := stringify_length_ge_left bigSharedState
  have hleft : bigSharedState.leftContent.length = 1000 := by
    show (List.replicate 1000 'a').length = 1000
    rw [List.length_replicate]
  have hlen : ¬ (jsonStringify (sharedToJson bigSharedState)).length < 1000 := by
    omega
  simp only [generateShareableURL]
  rw [if_neg hlen]
  decide

/-- C5 (amended): whenever the JSON serialization of the state is
shorter than 1000 characters, the generated URL is exactly
`baseUrl#share=<token>` with `<token> =
compressData(JSON.stringify(state))`; larger states go through the
`#ref=` local-storage branch instead. -/
theorem generateShareableURL_share (d : SharedDiffData) (baseUrl : String)
    (now : Int) (rand : String)
    (h : (jsonStringify (sharedToJson d)).length < 1000) :
    generateShareableURL d baseUrl now rand
      = baseUrl ++ "#share=" ++ compressData (jsonStringify (sharedToJson d)) := by
  simp only [generateShareableURL]
  rw [if_pos h]

/-- Witness for C5's amended theorem at a concrete small state. -/
theorem generateShareableURL_share_witness :
    ((jsonStringify (sharedToJson smallSharedState)).length < 1000)
  ∧ generateShareableURL smallSharedState "" 0 "r"
      = "" ++ "#share="
        ++ compressData (jsonStringify (sharedToJson smallSharedState)) := by
  have h : (jsonStringify (sharedToJson smallSharedState)).length < 1000 := by
    show (printJson (sharedToJson smallSharedState)).length < 1000
    rw [show sharedToJson smallSharedState
        = Json.obj [("mode", Json.str "text"), ("leftContent", Json.str "a"),
            ("rightContent", Json.str "b"), ("settings", Json.obj []),
            ("timestamp", Json.num 0)] from rfl]
    rw [printJson_obj, printFieldsJoined_cons, printFieldsJoined_cons,
      printFieldsJoined_cons, printFieldsJoined_cons, printFieldsJoined_single]
    rw [printJson_str, printJson_str, printJson_str, printJson_num,
      printJson_obj, printFieldsJoined_nil]
    decide
  exact ⟨h, generateShareableURL_share smallSharedState "" 0 "r" h⟩

example : compressData "ab" = "YWI=" := by decide

example : decompressData "YWI=" = "ab" := by decide

example : jsTrim "  x " = "x" := by decide

example : jsonParse "[1,true,\"x\"]"
    = some (Json.arr [Json.num 1, Json.bool true, Json.str "x"]) := rfl

example : jsonStringify (Json.arr [Json.num 1, Json.bool true, Json.str "x"])
    = "[1,true,\"x\"]" := rfl

end Diffy
